import Mathlib

/-!
Verification of the reconciliation core of `easy_run.py`
(Canvas-Assignments-Transfer-For-Todoist).

The Python source is shallowly embedded: the global dictionaries become
explicit parameters (the course mapping `course_ids`, the project mapping
`todoist_project_dict` and the task list `todoist_tasks`), the current
moment `datetime.now()` becomes an integer parameter `now` counted in
seconds, datetimes are integers (seconds), and the exceptions a run can
raise (`KeyError` on a missing mapping, `ValueError` from `strptime`,
`TypeError` from updating a `None` task) become an `Except Err` result.
Todoist's staged side effects (`add_item`, `Item.update`, `commit`) are
recorded as an explicit operation list.
-/

namespace EasyRun

/-- Decidable equality on `Except`, for evaluating runs on concrete
inputs. -/
instance exceptDecEq {ε α : Type} [DecidableEq ε] [DecidableEq α] :
    DecidableEq (Except ε α) := fun x y =>
  match x, y with
  | .error a, .error b =>
    if h : a = b then isTrue (by rw [h]) else isFalse (by intro hc; cases hc; exact h rfl)
  | .error _, .ok _ => isFalse (by intro hc; cases hc)
  | .ok _, .error _ => isFalse (by intro hc; cases hc)
  | .ok a, .ok b =>
    if h : a = b then isTrue (by rw [h]) else isFalse (by intro hc; cases hc; exact h rfl)

/-- A Todoist due object: the dictionary `task['due']`, carrying its
`'date'` entry (which itself may be `None` after an update writes
`{'date': None}`). -/
structure Due where
  date : Option String
deriving DecidableEq, Repr

/-- A Todoist task as the script reads it: `content`, `project_id`,
optional `due` object and `priority`. -/
structure Task where
  content : String
  project_id : Nat
  due : Option Due
  priority : Nat
deriving DecidableEq, Repr

/-- The `assignment['submission']` sub-object. -/
structure Submission where
  submitted_at : Option String
deriving DecidableEq, Repr

/-- A Canvas assignment as the script reads it.  The `priority` field
models the mutable slot `c_a['priority']` that
`transfer_assignments_to_todoist` writes before matching; input
assignments carry an arbitrary value there until the pass sets it. -/
structure Assignment where
  name : String
  due_at : Option String
  course_id : Nat
  html_url : String
  submission : Submission
  priority : Nat
deriving DecidableEq, Repr

/-- The exceptions a reconciliation pass can raise:
`KeyError` from `course_ids[str(c_a['course_id'])]`,
`KeyError` from `todoist_project_dict[c_cn]`,
`ValueError` from `datetime.strptime`, and the `TypeError` that
`update_task(c_a, None)` would raise. -/
inductive Err where
  | keyErrorCourse (course_id : Nat)
  | keyErrorProject (course_name : String)
  | valueErrorDate (s : String)
  | noneTypeUpdate
deriving DecidableEq, Repr

/-- The four summary categories of `transfer_assignments_to_todoist`. -/
inductive Cat where
  | added
  | updated
  | isSubmitted
  | upToDate
deriving DecidableEq, Repr

/-- A staged Todoist side effect: `todoist_api.add_item(...)` or
`item.update(...)`.  An update identifies the matched task by its
position in the `todoist_tasks` list (the Python code holds an object
reference). -/
inductive Op where
  | addItem (content : String) (project_id : Nat) (date_string : Option String) (priority : Nat)
  | updateItem (idx : Nat) (due_date : Option String) (priority : Nat)
deriving DecidableEq, Repr

/-- A service-visible event: a staged change reaching the service inside
the single `todoist_api.commit()`. -/
inductive Event where
  | stage (op : Op)
  | commit
deriving DecidableEq, Repr

/-- The summary dictionary of `transfer_assignments_to_todoist`:
`{'added': [], 'updated': [], 'is-submitted': [], 'up-to-date': []}`. -/
structure Summary where
  added : List Assignment
  updated : List Assignment
  is_submitted : List Assignment
  up_to_date : List Assignment
deriving DecidableEq, Repr

/-- `make_task_title`: `'[' + assignment['name'] + '](' + assignment['html_url'] + ')'`. -/
def make_task_title (assignment : Assignment) : String :=
  "[" ++ assignment.name ++ "](" ++ assignment.html_url ++ ")"

/-- `assignment_name.lower()` as a character list (ASCII lowering; the
keyword lists are ASCII). -/
def lowerChars (s : String) : List Char :=
  s.data.map Char.toLower

/-- Python's substring test `needle in hay` on character lists. -/
def containsSub (needle : List Char) : List Char → Bool
  | [] => needle.isEmpty
  | c :: rest => needle.isPrefixOf (c :: rest) || containsSub needle rest

/-- `any(keyword in assignment_name.lower() for keyword in keywords)`. -/
def anyKeyword (lowerName : List Char) (kws : List String) : Bool :=
  kws.any fun kw => containsSub kw.data lowerName

/-- The `keywords` dictionary of `find_priority`, in its (insertion)
iteration order. -/
def keyword_tiers : List (Nat × List String) :=
  [ (4, ["exam", "test", "midterm", "final"]),
    (3, ["project", "paper", "quiz", "homework", "discussion"]),
    (2, ["reading", "assignment"]) ]

/-- The digit value of an ASCII digit character. -/
def digitVal (c : Char) : Option Nat :=
  if c.isDigit then some (c.toNat - 48) else none

/-- Two ASCII digits to a number. -/
def parse2 (a b : Char) : Option Nat :=
  match digitVal a, digitVal b with
  | some x, some y => some (10 * x + y)
  | _, _ => none

/-- Four ASCII digits to a number. -/
def parse4 (a b c d : Char) : Option Nat :=
  match parse2 a b, parse2 c d with
  | some x, some y => some (100 * x + y)
  | _, _ => none

/-- Days since the Unix epoch of a civil date (proleptic Gregorian
calendar, standard era-based computation). -/
def daysFromCivil (y mo d : Int) : Int :=
  let y' := if mo ≤ 2 then y - 1 else y
  let era := y'.fdiv 400
  let yoe := y' - era * 400
  let mp := if mo > 2 then mo - 3 else mo + 9
  let doy := (153 * mp + 2).fdiv 5 + d - 1
  let doe := yoe * 365 + yoe.fdiv 4 - yoe.fdiv 100 + doy
  era * 146097 + doe - 719468

/-- Seconds since the Unix epoch of a civil datetime. -/
def epochSeconds (y mo d h mi s : Nat) : Int :=
  daysFromCivil (Int.ofNat y) (Int.ofNat mo) (Int.ofNat d) * 86400 +
    Int.ofNat (h * 3600 + mi * 60 + s)

/-- `datetime.strptime(s, '%Y-%m-%dT%H:%M:%SZ')`, as seconds since the
epoch; `none` models the `ValueError` raised on a malformed string. -/
def strptimeZ (s : String) : Option Int :=
  match s.data with
  | [y1, y2, y3, y4, c1, m1, m2, c2, d1, d2, c3, h1, h2, c4, i1, i2, c5, s1, s2, c6] =>
    if c1 = '-' ∧ c2 = '-' ∧ c3 = 'T' ∧ c4 = ':' ∧ c5 = ':' ∧ c6 = 'Z' then
      match parse4 y1 y2 y3 y4, parse2 m1 m2, parse2 d1 d2,
            parse2 h1 h2, parse2 i1 i2, parse2 s1 s2 with
      | some y, some mo, some d, some h, some mi, some se =>
        if 1 ≤ mo ∧ mo ≤ 12 ∧ 1 ≤ d ∧ d ≤ 31 ∧ h ≤ 23 ∧ mi ≤ 59 ∧ se ≤ 59 then
          some (epochSeconds y mo d h mi se)
        else none
      | _, _, _, _, _, _ => none
    else none
  | _ => none

/-- `find_priority(assignment)`: the keyword fold followed by the
due-date override `if (due_at - datetime.now()).days < 3: priority = 4`.
Python's `timedelta.days` floors, hence `Int.fdiv`.  `none` models the
`ValueError` that `strptime` raises on a malformed `due_at`. -/
def find_priority (name : String) (due_at : Option String) (now : Int) : Option Nat :=
  let priority := keyword_tiers.foldl
    (fun priority pk =>
      if pk.1 > priority ∧ anyKeyword (lowerChars name) pk.2 = true then pk.1 else priority)
    1
  match due_at with
  | none => some priority
  | some s =>
    match strptimeZ s with
    | none => none
    | some due => some (if (due - now).fdiv 86400 < 3 then 4 else priority)

/-- The match test of `check_existing_task`:
`task['content'] == task_title and task['project_id'] == project_id`. -/
def isMatchB (assignment : Assignment) (project_id : Nat) (task : Task) : Bool :=
  task.content == make_task_title assignment && task.project_id == project_id

/-- The staleness test of `check_existing_task`:
`(task['due'] and task['due']['date'] != assignment['due_at']) or
 task['priority'] != assignment['priority']`. -/
def outOfSyncB (assignment : Assignment) (task : Task) : Bool :=
  (match task.due with
   | some d => d.date != assignment.due_at
   | none => false) || task.priority != assignment.priority

/-- A task that matches and is out of sync (the branch that sets
`is_synced = False` and breaks). -/
def isBadB (assignment : Assignment) (project_id : Nat) (task : Task) : Bool :=
  isMatchB assignment project_id task && outOfSyncB assignment task

/-- The position of the first matching out-of-sync task. -/
def firstBadIdx (assignment : Assignment) (project_id : Nat) : List Task → Option Nat
  | [] => none
  | t :: rest =>
    if isBadB assignment project_id t then some 0
    else (firstBadIdx assignment project_id rest).map (· + 1)

/-- The `for task in todoist_tasks` loop of `check_existing_task`,
carrying the position `i` of the current task and the `is_added` flag. -/
def checkGo (assignment : Assignment) (project_id : Nat) :
    List Task → Nat → Bool → Bool × Bool × Option Nat
  | [], _, is_added => (is_added, true, none)
  | t :: rest, i, is_added =>
    if isMatchB assignment project_id t then
      if outOfSyncB assignment t then (true, false, some i)
      else checkGo assignment project_id rest (i + 1) true
    else checkGo assignment project_id rest (i + 1) is_added

/-- `check_existing_task(assignment, project_id)`: returns
`(is_added, is_synced, item)`, the matched out-of-sync task being
identified by its position in `todoist_tasks`. -/
def check_existing_task (assignment : Assignment) (project_id : Nat)
    (todoist_tasks : List Task) : Bool × Bool × Option Nat :=
  checkGo assignment project_id todoist_tasks 0 false

/-- One iteration of the `for i, c_a in enumerate(assignments)` loop of
`transfer_assignments_to_todoist`: resolve the course name and project
id, compute and store the priority, match, and dispatch.  Returns the
enriched assignment, its summary category, and the staged side effects
(`add_new_task` stages an `add_item`, `update_task` stages an update of
the matched task). -/
def processOne (course_ids : List (Nat × String)) (todoist_project_dict : List (String × Nat))
    (now : Int) (todoist_tasks : List Task) (c_a : Assignment) :
    Except Err (Assignment × Cat × List Op) :=
  match course_ids.lookup c_a.course_id with
  | none => .error (.keyErrorCourse c_a.course_id)
  | some c_cn =>
    match todoist_project_dict.lookup c_cn with
    | none => .error (.keyErrorProject c_cn)
    | some t_proj_id =>
      match find_priority c_a.name c_a.due_at now with
      | none => .error (.valueErrorDate (c_a.due_at.getD ""))
      | some priority =>
        let c := { c_a with priority := priority }
        match check_existing_task c t_proj_id todoist_tasks with
        | (is_added, is_synced, item) =>
          if is_added = false then
            if c.submission.submitted_at = none then
              .ok (c, .added, [.addItem (make_task_title c) t_proj_id c.due_at priority])
            else
              .ok (c, .isSubmitted, [])
          else if is_synced = false then
            match item with
            | some idx => .ok (c, .updated, [.updateItem idx c.due_at priority])
            | none => .error .noneTypeUpdate
          else
            .ok (c, .upToDate, [])

/-- All iterations of the loop, in input order, short-circuiting on the
first raised exception (an uncaught exception aborts the whole pass). -/
def processAll (course_ids : List (Nat × String)) (todoist_project_dict : List (String × Nat))
    (now : Int) (todoist_tasks : List Task) :
    List Assignment → Except Err (List (Assignment × Cat × List Op))
  | [] => .ok []
  | c_a :: rest =>
    match processOne course_ids todoist_project_dict now todoist_tasks c_a with
    | .error e => .error e
    | .ok r =>
      match processAll course_ids todoist_project_dict now todoist_tasks rest with
      | .error e => .error e
      | .ok rs => .ok (r :: rs)

/-- `summary[cat].append(c_a)`. -/
def addToSummary (s : Summary) (cat : Cat) (c_a : Assignment) : Summary :=
  match cat with
  | .added => { s with added := s.added ++ [c_a] }
  | .updated => { s with updated := s.updated ++ [c_a] }
  | .isSubmitted => { s with is_submitted := s.is_submitted ++ [c_a] }
  | .upToDate => { s with up_to_date := s.up_to_date ++ [c_a] }

/-- The assignment loop of `transfer_assignments_to_todoist`, threading
the summary and the staged side effects. -/
def transferGo (course_ids : List (Nat × String)) (todoist_project_dict : List (String × Nat))
    (now : Int) (todoist_tasks : List Task) :
    List Assignment → Summary → List Op → Except Err (Summary × List Op)
  | [], s, ops => .ok (s, ops)
  | c_a :: rest, s, ops =>
    match processOne course_ids todoist_project_dict now todoist_tasks c_a with
    | .error e => .error e
    | .ok (c, cat, newOps) =>
      transferGo course_ids todoist_project_dict now todoist_tasks rest
        (addToSummary s cat c) (ops ++ newOps)

/-- The empty summary the pass starts from. -/
def emptySummary : Summary := ⟨[], [], [], []⟩

/-- `transfer_assignments_to_todoist`, up to the staged side effects: the
full assignment loop starting from the empty summary. -/
def transfer (course_ids : List (Nat × String)) (todoist_project_dict : List (String × Nat))
    (now : Int) (todoist_tasks : List Task) (assignments : List Assignment) :
    Except Err (Summary × List Op) :=
  transferGo course_ids todoist_project_dict now todoist_tasks assignments emptySummary []

/-- Recognizer for the commit event. -/
def isCommitEvent : Event → Bool
  | .commit => true
  | .stage _ => false

/-- Modelled from the spec: the service-visible event trace of a pass.
The Todoist client library (external to this repository) only stages the
`add_item`/`update` calls, and `todoist_api.commit()` — invoked once
after the loop, line 315 — flushes them all; an aborted pass never
reaches the commit. -/
def runEvents (course_ids : List (Nat × String)) (todoist_project_dict : List (String × Nat))
    (now : Int) (todoist_tasks : List Task) (assignments : List Assignment) :
    Except Err (List Event) :=
  match transfer course_ids todoist_project_dict now todoist_tasks assignments with
  | .error e => .error e
  | .ok (_, ops) => .ok (ops.map Event.stage ++ [Event.commit])

/-- Modelled from the spec: the task created in Todoist by a committed
`add_item(title, project_id=..., date_string=..., priority=...)` — the
TaskSink stores the staged fields as given. -/
def taskOfAdd (content : String) (project_id : Nat) (date_string : Option String)
    (priority : Nat) : Task :=
  ⟨content, project_id, date_string.map (fun d => ⟨some d⟩), priority⟩

/-- Modelled from the spec: applying one committed staged change to the
task set.  `update_task` writes `due={'date': c_d}` and `priority=c_p`
on the referenced task, keeping its content and project. -/
def applyOp (tasks : List Task) : Op → List Task
  | .addItem content project_id date_string priority =>
    tasks ++ [taskOfAdd content project_id date_string priority]
  | .updateItem idx due_date priority =>
    match tasks[idx]? with
    | some t => tasks.set idx { t with due := some ⟨due_date⟩, priority := priority }
    | none => tasks

/-- Modelled from the spec: the task set after the single commit flushes
all staged changes, in staging order. -/
def applyOps (tasks : List Task) (ops : List Op) : List Task :=
  ops.foldl applyOp tasks

/-- The tasks created by the add operations of a staged-change list, in
order (they are appended after all existing tasks). -/
def addsOf (ops : List Op) : List Task :=
  ops.filterMap fun op =>
    match op with
    | .addItem content project_id date_string priority =>
      some (taskOfAdd content project_id date_string priority)
    | .updateItem _ _ _ => none

/-! ### The matcher: characterization of `check_existing_task` -/

lemma isMatchB_of_isBadB {a : Assignment} {pid : Nat} {t : Task}
    (h : isBadB a pid t = true) : isMatchB a pid t = true := by
  rw [isBadB, Bool.and_eq_true] at h
  exact h.1

lemma checkGo_eq (a : Assignment) (pid : Nat) (l : List Task) (i : Nat) (b : Bool) :
    checkGo a pid l i b =
      (b || l.any (isMatchB a pid), !l.any (isBadB a pid),
        (firstBadIdx a pid l).map (· + i)) := by
  induction l generalizing i b with
  | nil => simp [checkGo, firstBadIdx]
  | cons t rest ih =>
    by_cases hm : isMatchB a pid t
    · by_cases ho : outOfSyncB a t
      · have hb : isBadB a pid t = true := by simp [isBadB, hm, ho]
        simp [checkGo, hm, ho, firstBadIdx, hb]
      · have hb : isBadB a pid t = false := by simp [isBadB, ho]
        rw [checkGo, if_pos hm, if_neg (by simp [ho]), ih, firstBadIdx,
          if_neg (by simp [hb])]
        cases hfb : firstBadIdx a pid rest <;>
          simp [List.any_cons, hm, hb, hfb, Prod.mk.injEq] <;> omega
    · have hb : isBadB a pid t = false := by simp [isBadB, hm]
      rw [checkGo, if_neg (by simp [hm]), ih, firstBadIdx, if_neg (by simp [hb])]
      cases hfb : firstBadIdx a pid rest <;>
        simp [List.any_cons, hm, hb, hfb, Prod.mk.injEq] <;> omega

lemma check_eq (a : Assignment) (pid : Nat) (tasks : List Task) :
    check_existing_task a pid tasks =
      (tasks.any (isMatchB a pid), !tasks.any (isBadB a pid), firstBadIdx a pid tasks) := by
  rw [check_existing_task, checkGo_eq]
  cases hfb : firstBadIdx a pid tasks <;> simp [hfb, Prod.mk.injEq]

lemma firstBadIdx_some {a : Assignment} {pid : Nat} {tasks : List Task} {j : Nat}
    (h : firstBadIdx a pid tasks = some j) :
    ∃ t, tasks[j]? = some t ∧ isBadB a pid t = true := by
  induction tasks generalizing j with
  | nil => simp [firstBadIdx] at h
  | cons t rest ih =>
    rw [firstBadIdx] at h
    by_cases hb : isBadB a pid t
    · rw [if_pos hb] at h
      cases h
      exact ⟨t, by simp, hb⟩
    · rw [if_neg hb] at h
      cases hrec : firstBadIdx a pid rest with
      | none => rw [hrec] at h; simp at h
      | some j' =>
        rw [hrec] at h
        simp at h
        obtain ⟨u, hu, hbu⟩ := ih hrec
        refine ⟨u, ?_, hbu⟩
        rw [← h]
        simpa using hu

lemma firstBadIdx_none {a : Assignment} {pid : Nat} {tasks : List Task}
    (h : tasks.any (isBadB a pid) = false) : firstBadIdx a pid tasks = none := by
  induction tasks with
  | nil => rfl
  | cons t rest ih =>
    simp only [List.any_cons, Bool.or_eq_false_iff] at h
    rw [firstBadIdx, if_neg (by simp [h.1]), ih h.2]
    rfl

lemma any_isBad_false_of_none {a : Assignment} {pid : Nat} {tasks : List Task}
    (h : firstBadIdx a pid tasks = none) : tasks.any (isBadB a pid) = false := by
  induction tasks with
  | nil => rfl
  | cons t rest ih =>
    rw [firstBadIdx] at h
    by_cases hb : isBadB a pid t
    · rw [if_pos hb] at h; exact Option.noConfusion h
    · rw [if_neg hb] at h
      cases hrec : firstBadIdx a pid rest with
      | none =>
        simp only [List.any_cons, ih hrec, Bool.or_false]
        cases hx : isBadB a pid t with
        | false => rfl
        | true => exact absurd hx hb
      | some j => rw [hrec] at h; exact Option.noConfusion h

lemma firstBadIdx_lt {a : Assignment} {pid : Nat} {tasks : List Task} {j : Nat}
    (h : firstBadIdx a pid tasks = some j) : j < tasks.length := by
  obtain ⟨t, ht, _⟩ := firstBadIdx_some h
  rw [List.getElem?_eq_some_iff] at ht
  exact ht.1

lemma any_isBad_true {a : Assignment} {pid : Nat} {tasks : List Task} {j : Nat}
    (h : firstBadIdx a pid tasks = some j) : tasks.any (isBadB a pid) = true := by
  obtain ⟨t, ht, hb⟩ := firstBadIdx_some h
  rw [List.getElem?_eq_some_iff] at ht
  obtain ⟨hlt, rfl⟩ := ht
  exact List.any_eq_true.2 ⟨tasks[j], List.getElem_mem hlt, hb⟩

lemma any_isMatch_of_any_isBad {a : Assignment} {pid : Nat} {tasks : List Task}
    (h : tasks.any (isBadB a pid) = true) : tasks.any (isMatchB a pid) = true := by
  rw [List.any_eq_true] at h ⊢
  obtain ⟨t, ht, hb⟩ := h
  exact ⟨t, ht, isMatchB_of_isBadB hb⟩

/-! ### Claims about the matcher: C9 and C2 -/

/-- C9: if no task has both content equal to the expected title
`[name](html_url)` and project id equal to the target project id, then
`check_existing_task` returns exists false, in sync true, and no task. -/
theorem check_no_match_returns_false_true_none (a : Assignment) (pid : Nat)
    (tasks : List Task)
    (h : ∀ t ∈ tasks, ¬(t.content = make_task_title a ∧ t.project_id = pid)) :
    check_existing_task a pid tasks = (false, true, none) := by
  have hm : tasks.any (isMatchB a pid) = false := by
    rw [List.any_eq_false]
    intro t ht
    rw [isMatchB, Bool.and_eq_true, beq_iff_eq, beq_iff_eq]
    exact h t ht
  have hb : tasks.any (isBadB a pid) = false := by
    rw [List.any_eq_false]
    intro t ht hbad
    rw [List.any_eq_false] at hm
    exact hm t ht (isMatchB_of_isBadB hbad)
  rw [check_eq, hm, hb, firstBadIdx_none hb]
  rfl

/-- C9 witness: a task list whose single task differs in content. -/
theorem check_no_match_returns_false_true_none_witness :
    check_existing_task ⟨"A", some "d", 1, "u", ⟨none⟩, 1⟩ 5
      [⟨"[B](u)", 5, none, 1⟩] = (false, true, none) :=
  check_no_match_returns_false_true_none _ 5 _ (by decide)

/-- C2 counterexample: the first matching task (in sync) does not alone
determine the result — appending a later matching out-of-sync task
changes the returned triple from `(true, true, none)` to
`(true, false, some 1)`, because the scan only breaks on an out-of-sync
match. -/
theorem check_first_match_counterexample :
    check_existing_task ⟨"A", some "d", 1, "u", ⟨none⟩, 1⟩ 5
        [⟨"[A](u)", 5, some ⟨some "d"⟩, 1⟩] = (true, true, none) ∧
      check_existing_task ⟨"A", some "d", 1, "u", ⟨none⟩, 1⟩ 5
        [⟨"[A](u)", 5, some ⟨some "d"⟩, 1⟩, ⟨"[A](u)", 5, some ⟨some "e"⟩, 1⟩] =
        (true, false, some 1) := by
  decide

/-- C2 amended: the returned triple is determined by whether any task
matches the (title, project) pair and by the first matching out-of-sync
task in scan order: `exists` is true iff some task matches, `in_sync` is
true iff no matching task is out of sync, and `matched_task` is the first
matching out-of-sync task, if any.  Later tasks therefore can change the
result exactly when every earlier matching task is in sync. -/
theorem check_determined_by_first_bad_match (a : Assignment) (pid : Nat)
    (tasks : List Task) :
    check_existing_task a pid tasks =
      (tasks.any (isMatchB a pid), !tasks.any (isBadB a pid),
        firstBadIdx a pid tasks) :=
  check_eq a pid tasks

/-! ### Claims about the priority classifier: C7, C8, C10 -/

lemma keywordFold_eq_four (name : String)
    (hkw : anyKeyword (lowerChars name) ["exam", "test", "midterm", "final"] = true) :
    keyword_tiers.foldl
      (fun priority pk =>
        if pk.1 > priority ∧ anyKeyword (lowerChars name) pk.2 = true then pk.1 else priority)
      1 = 4 := by
  simp [keyword_tiers, hkw]

lemma keywordFold_eq_one (name : String)
    (hkw : ∀ pk ∈ keyword_tiers, anyKeyword (lowerChars name) pk.2 = false) :
    keyword_tiers.foldl
      (fun priority pk =>
        if pk.1 > priority ∧ anyKeyword (lowerChars name) pk.2 = true then pk.1 else priority)
      1 = 1 := by
  have h4 := hkw (4, ["exam", "test", "midterm", "final"]) (by simp [keyword_tiers])
  have h3 := hkw (3, ["project", "paper", "quiz", "homework", "discussion"])
    (by simp [keyword_tiers])
  have h2 := hkw (2, ["reading", "assignment"]) (by simp [keyword_tiers])
  simp [keyword_tiers, h4, h3, h2]

/-- C7: an assignment whose name case-insensitively contains a tier-4
keyword gets priority 4 from `find_priority`, whatever its due date
(absent, or any well-formed timestamp). -/
theorem tier4_keyword_forces_urgent (name : String) (due_at : Option String) (now : Int)
    (hkw : anyKeyword (lowerChars name) ["exam", "test", "midterm", "final"] = true)
    (hdue : due_at = none ∨ ∃ s t, due_at = some s ∧ strptimeZ s = some t) :
    find_priority name due_at now = some 4 := by
  rcases hdue with rfl | ⟨s, t, rfl, hst⟩
  · rw [find_priority.eq_def]
    simp [keywordFold_eq_four name hkw]
  · rw [find_priority.eq_def]
    simp only [keywordFold_eq_four name hkw, hst]
    by_cases hlt : (t - now).fdiv 86400 < 3 <;> simp [hlt]

/-- C7 witness: a far-future exam is still Urgent. -/
theorem tier4_keyword_forces_urgent_witness :
    find_priority "Midterm Exam" (some "1970-03-01T00:00:00Z") 0 = some 4 :=
  tier4_keyword_forces_urgent "Midterm Exam" (some "1970-03-01T00:00:00Z") 0
    (by decide) (Or.inr ⟨"1970-03-01T00:00:00Z", 5097600, rfl, by decide⟩)

/-- C8: an assignment whose name contains no keyword of any tier, whose
due date is absent or at least 3 days (259200 seconds) after the current
moment, gets priority 1 from `find_priority`. -/
theorem no_keyword_far_due_normal (name : String) (due_at : Option String) (now : Int)
    (hkw : ∀ pk ∈ keyword_tiers, anyKeyword (lowerChars name) pk.2 = false)
    (hdue : due_at = none ∨
      ∃ s t, due_at = some s ∧ strptimeZ s = some t ∧ 259200 ≤ t - now) :
    find_priority name due_at now = some 1 := by
  rcases hdue with rfl | ⟨s, t, rfl, hst, hfar⟩
  · rw [find_priority.eq_def]
    simp [keywordFold_eq_one name hkw]
  · rw [find_priority.eq_def]
    simp only [keywordFold_eq_one name hkw, hst]
    have h3 : ¬((t - now).fdiv 86400 < 3) := by
      rw [Int.fdiv_eq_ediv _ (by omega)]
      have := (Int.le_ediv_iff_mul_le (c := 86400) (by omega)).2
        (by omega : (3 : Int) * 86400 ≤ t - now)
      omega
    simp [h3]

/-- C8 witness: a keyword-free assignment due 4 days out stays Normal. -/
theorem no_keyword_far_due_normal_witness :
    find_priority "zzz" (some "1970-01-05T00:00:00Z") 0 = some 1 :=
  no_keyword_far_due_normal "zzz" (some "1970-01-05T00:00:00Z") 0 (by decide)
    (Or.inr ⟨"1970-01-05T00:00:00Z", 345600, rfl, by decide, by omega⟩)

/-- C10: an overdue assignment (well-formed `due_at` strictly before the
current moment) gets priority 4 from `find_priority`, whatever keywords
its name contains: the fewer-than-3-days check also captures every past
due date. -/
theorem overdue_forces_urgent (name : String) (s : String) (t now : Int)
    (hs : strptimeZ s = some t) (hlt : t < now) :
    find_priority name (some s) now = some 4 := by
  rw [find_priority.eq_def]
  simp only [hs]
  have h3 : (t - now).fdiv 86400 < 3 := by
    rw [Int.fdiv_eq_ediv _ (by omega)]
    have := Int.ediv_neg' (a := t - now) (b := 86400) (by omega) (by omega)
    omega
  simp [h3]

/-- C10 witness: an overdue keyword-free assignment is Urgent. -/
theorem overdue_forces_urgent_witness :
    find_priority "zzz" (some "1970-01-01T00:00:00Z") 86400 = some 4 :=
  overdue_forces_urgent "zzz" "1970-01-01T00:00:00Z" 0 86400 (by decide) (by omega)

/-! ### The reconciler: dispatch lemmas for `processOne` -/

lemma processOne_added (cm : List (Nat × String)) (pm : List (String × Nat))
    (now : Int) (tasks : List Task) (c_a : Assignment) (c_cn : String) (pid p : Nat)
    (hc : List.lookup c_a.course_id cm = some c_cn)
    (hp : List.lookup c_cn pm = some pid)
    (hpr : find_priority c_a.name c_a.due_at now = some p)
    (hnm : tasks.any (isMatchB { c_a with priority := p } pid) = false)
    (hsub : c_a.submission.submitted_at = none) :
    processOne cm pm now tasks c_a =
      .ok ({ c_a with priority := p }, .added,
        [.addItem (make_task_title { c_a with priority := p }) pid c_a.due_at p]) := by
  have hnb : tasks.any (isBadB { c_a with priority := p } pid) = false := by
    cases hb : tasks.any (isBadB { c_a with priority := p } pid) with
    | false => rfl
    | true => rw [any_isMatch_of_any_isBad hb] at hnm; cases hnm
  simp only [processOne, hc, hp, hpr, check_eq, hnm, hnb, firstBadIdx_none hnb]
  simp [hsub]

lemma processOne_submitted (cm : List (Nat × String)) (pm : List (String × Nat))
    (now : Int) (tasks : List Task) (c_a : Assignment) (c_cn : String) (pid p : Nat)
    (hc : List.lookup c_a.course_id cm = some c_cn)
    (hp : List.lookup c_cn pm = some pid)
    (hpr : find_priority c_a.name c_a.due_at now = some p)
    (hnm : tasks.any (isMatchB { c_a with priority := p } pid) = false)
    (hsub : c_a.submission.submitted_at ≠ none) :
    processOne cm pm now tasks c_a = .ok ({ c_a with priority := p }, .isSubmitted, []) := by
  have hnb : tasks.any (isBadB { c_a with priority := p } pid) = false := by
    cases hb : tasks.any (isBadB { c_a with priority := p } pid) with
    | false => rfl
    | true => rw [any_isMatch_of_any_isBad hb] at hnm; cases hnm
  simp only [processOne, hc, hp, hpr, check_eq, hnm, hnb, firstBadIdx_none hnb]
  simp [hsub]

lemma processOne_updated (cm : List (Nat × String)) (pm : List (String × Nat))
    (now : Int) (tasks : List Task) (c_a : Assignment) (c_cn : String) (pid p j : Nat)
    (hc : List.lookup c_a.course_id cm = some c_cn)
    (hp : List.lookup c_cn pm = some pid)
    (hpr : find_priority c_a.name c_a.due_at now = some p)
    (hfb : firstBadIdx { c_a with priority := p } pid tasks = some j) :
    processOne cm pm now tasks c_a =
      .ok ({ c_a with priority := p }, .updated, [.updateItem j c_a.due_at p]) := by
  have hab : tasks.any (isBadB { c_a with priority := p } pid) = true := any_isBad_true hfb
  have ham : tasks.any (isMatchB { c_a with priority := p } pid) = true :=
    any_isMatch_of_any_isBad hab
  simp only [processOne, hc, hp, hpr, check_eq, hab, ham, hfb]
  simp

lemma processOne_uptodate (cm : List (Nat × String)) (pm : List (String × Nat))
    (now : Int) (tasks : List Task) (c_a : Assignment) (c_cn : String) (pid p : Nat)
    (hc : List.lookup c_a.course_id cm = some c_cn)
    (hp : List.lookup c_cn pm = some pid)
    (hpr : find_priority c_a.name c_a.due_at now = some p)
    (ham : tasks.any (isMatchB { c_a with priority := p } pid) = true)
    (hnb : tasks.any (isBadB { c_a with priority := p } pid) = false) :
    processOne cm pm now tasks c_a = .ok ({ c_a with priority := p }, .upToDate, []) := by
  simp only [processOne, hc, hp, hpr, check_eq, ham, hnb, firstBadIdx_none hnb]
  simp

/-- Everything an `.ok` result of `processOne` tells us: the resolved
mappings, the stored priority, and the case analysis that produced the
category and the staged side effects. -/
lemma processOne_ok_shape {cm : List (Nat × String)} {pm : List (String × Nat)}
    {now : Int} {tasks : List Task} {c_a c : Assignment} {cat : Cat} {ops : List Op}
    (h : processOne cm pm now tasks c_a = .ok (c, cat, ops)) :
    ∃ c_cn pid p,
      List.lookup c_a.course_id cm = some c_cn ∧
      List.lookup c_cn pm = some pid ∧
      find_priority c_a.name c_a.due_at now = some p ∧
      c = { c_a with priority := p } ∧
      ((cat = .added ∧ tasks.any (isMatchB c pid) = false ∧
          c_a.submission.submitted_at = none ∧
          ops = [.addItem (make_task_title c) pid c_a.due_at p]) ∨
        (cat = .isSubmitted ∧ tasks.any (isMatchB c pid) = false ∧
          c_a.submission.submitted_at ≠ none ∧ ops = []) ∨
        (cat = .updated ∧ tasks.any (isBadB c pid) = true ∧
          (∃ j, firstBadIdx c pid tasks = some j ∧ ops = [.updateItem j c_a.due_at p])) ∨
        (cat = .upToDate ∧ tasks.any (isMatchB c pid) = true ∧
          tasks.any (isBadB c pid) = false ∧ ops = [])) := by
  unfold processOne at h
  cases hc : List.lookup c_a.course_id cm with
  | none => simp only [hc] at h; exact Except.noConfusion h
  | some c_cn =>
  simp only [hc] at h
  cases hp : List.lookup c_cn pm with
  | none => simp only [hp] at h; exact Except.noConfusion h
  | some pid =>
  simp only [hp] at h
  cases hpr : find_priority c_a.name c_a.due_at now with
  | none => simp only [hpr] at h; exact Except.noConfusion h
  | some p =>
  simp only [hpr, check_eq] at h
  refine ⟨c_cn, pid, p, rfl, hp, rfl, ?_⟩
  by_cases hm : tasks.any (isMatchB { c_a with priority := p } pid) = false
  · rw [hm] at h
    by_cases hsub : c_a.submission.submitted_at = none
    · rw [if_pos rfl] at h
      rw [if_pos hsub] at h
      simp only [Except.ok.injEq, Prod.mk.injEq] at h
      obtain ⟨rfl, rfl, rfl⟩ := h
      exact ⟨rfl, Or.inl ⟨rfl, hm, hsub, rfl⟩⟩
    · rw [if_pos rfl] at h
      rw [if_neg hsub] at h
      simp only [Except.ok.injEq, Prod.mk.injEq] at h
      obtain ⟨rfl, rfl, rfl⟩ := h
      exact ⟨rfl, Or.inr (Or.inl ⟨rfl, hm, hsub, rfl⟩)⟩
  · have hm' : tasks.any (isMatchB { c_a with priority := p } pid) = true := by
      cases hx : tasks.any (isMatchB { c_a with priority := p } pid) with
      | false => exact absurd hx hm
      | true => rfl
    rw [hm'] at h
    rw [if_neg (by simp)] at h
    by_cases hb : tasks.any (isBadB { c_a with priority := p } pid) = true
    · have hsy : (!tasks.any (isBadB { c_a with priority := p } pid)) = false := by
        rw [hb]; rfl
      rw [hsy, if_pos rfl] at h
      cases hfb : firstBadIdx { c_a with priority := p } pid tasks with
      | none =>
        rw [any_isBad_false_of_none hfb] at hb
        exact Bool.noConfusion hb
      | some j =>
        rw [hfb] at h
        simp only [Except.ok.injEq, Prod.mk.injEq] at h
        obtain ⟨rfl, rfl, rfl⟩ := h
        exact ⟨rfl, Or.inr (Or.inr (Or.inl ⟨rfl, hb, j, hfb, rfl⟩))⟩
    · have hb' : tasks.any (isBadB { c_a with priority := p } pid) = false := by
        cases hx : tasks.any (isBadB { c_a with priority := p } pid) with
        | true => exact absurd hx hb
        | false => rfl
      have hsy : (!tasks.any (isBadB { c_a with priority := p } pid)) = true := by
        rw [hb']; rfl
      rw [hsy, if_neg (by simp)] at h
      simp only [Except.ok.injEq, Prod.mk.injEq] at h
      obtain ⟨rfl, rfl, rfl⟩ := h
      exact ⟨rfl, Or.inr (Or.inr (Or.inr ⟨rfl, hm', hb', rfl⟩))⟩

/-- Re-processing the enriched assignment returned by `processOne` gives
the same result: the category is a function of the enriched assignment. -/
lemma processOne_self {cm : List (Nat × String)} {pm : List (String × Nat)}
    {now : Int} {tasks : List Task} {c_a c : Assignment} {cat : Cat} {ops : List Op}
    (h : processOne cm pm now tasks c_a = .ok (c, cat, ops)) :
    processOne cm pm now tasks c = .ok (c, cat, ops) := by
  obtain ⟨c_cn, pid, p, hc, hp, hpr, hce, hcase⟩ := processOne_ok_shape h
  subst hce
  have hc' : List.lookup ({ c_a with priority := p } : Assignment).course_id cm = some c_cn := hc
  have hpr' : find_priority ({ c_a with priority := p } : Assignment).name
      ({ c_a with priority := p } : Assignment).due_at now = some p := hpr
  rcases hcase with ⟨rfl, hm, hsub, rfl⟩ | ⟨rfl, hm, hsub, rfl⟩ |
    ⟨rfl, _, j, hfb, rfl⟩ | ⟨rfl, hm, hb, rfl⟩
  · exact processOne_added cm pm now tasks _ c_cn pid p hc' hp hpr' hm hsub
  · exact processOne_submitted cm pm now tasks _ c_cn pid p hc' hp hpr' hm hsub
  · exact processOne_updated cm pm now tasks _ c_cn pid p j hc' hp hpr' hfb
  · exact processOne_uptodate cm pm now tasks _ c_cn pid p hc' hp hpr' hm hb

/-! ### The reconciler: `processAll` and `transferGo` -/

lemma processAll_forall₂ {cm : List (Nat × String)} {pm : List (String × Nat)}
    {now : Int} {tasks : List Task} {l : List Assignment}
    {rs : List (Assignment × Cat × List Op)}
    (h : processAll cm pm now tasks l = .ok rs) :
    List.Forall₂ (fun a r => processOne cm pm now tasks a = .ok r) l rs := by
  induction l generalizing rs with
  | nil =>
    rw [processAll] at h
    cases h
    exact .nil
  | cons a l ih =>
    rw [processAll] at h
    cases h1 : processOne cm pm now tasks a with
    | error e => rw [h1] at h; exact Except.noConfusion h
    | ok r =>
      rw [h1] at h
      cases h2 : processAll cm pm now tasks l with
      | error e => rw [h2] at h; exact Except.noConfusion h
      | ok rs' =>
        rw [h2] at h
        cases h
        exact .cons h1 (ih h2)

lemma forall₂_mem_right {α β : Type} {R : α → β → Prop} {l₁ : List α} {l₂ : List β}
    (h : List.Forall₂ R l₁ l₂) {b : β} (hb : b ∈ l₂) : ∃ a ∈ l₁, R a b := by
  induction h with
  | nil => cases hb
  | cons hr _ ih =>
    cases hb with
    | head => exact ⟨_, List.mem_cons_self _ _, hr⟩
    | tail _ hb' =>
      obtain ⟨a, ha, har⟩ := ih hb'
      exact ⟨a, List.mem_cons_of_mem _ ha, har⟩

lemma processAll_length {cm : List (Nat × String)} {pm : List (String × Nat)}
    {now : Int} {tasks : List Task} {l : List Assignment}
    {rs : List (Assignment × Cat × List Op)}
    (h : processAll cm pm now tasks l = .ok rs) : rs.length = l.length :=
  (processAll_forall₂ h).length_eq.symm

/-- Every result in a successful pass is a fixpoint of `processOne`. -/
lemma processOne_of_mem {cm : List (Nat × String)} {pm : List (String × Nat)}
    {now : Int} {tasks : List Task} {l : List Assignment}
    {rs : List (Assignment × Cat × List Op)}
    (h : processAll cm pm now tasks l = .ok rs)
    {r : Assignment × Cat × List Op} (hr : r ∈ rs) :
    processOne cm pm now tasks r.1 = .ok r := by
  obtain ⟨a, _, ha⟩ := forall₂_mem_right (processAll_forall₂ h) hr
  obtain ⟨c, cat, ops⟩ := r
  exact processOne_self ha

/-- The assignments filed under one category, in pass order. -/
def catList (cat : Cat) (rs : List (Assignment × Cat × List Op)) : List Assignment :=
  (rs.filter fun r => r.2.1 == cat).map fun r => r.1

/-- The staged side effects of a pass, in staging order. -/
def opsOf (rs : List (Assignment × Cat × List Op)) : List Op :=
  rs.flatMap fun r => r.2.2

/-- The summary obtained by appending a result list onto `s`. -/
def appendBuckets (s : Summary) (rs : List (Assignment × Cat × List Op)) : Summary :=
  ⟨s.added ++ catList .added rs, s.updated ++ catList .updated rs,
    s.is_submitted ++ catList .isSubmitted rs, s.up_to_date ++ catList .upToDate rs⟩

lemma catList_cons (cat : Cat) (r : Assignment × Cat × List Op)
    (rs : List (Assignment × Cat × List Op)) :
    catList cat (r :: rs) =
      (if r.2.1 = cat then [r.1] else []) ++ catList cat rs := by
  by_cases h : r.2.1 = cat <;> simp [catList, List.filter_cons, h]

lemma appendBuckets_nil (s : Summary) : appendBuckets s [] = s := by
  cases s
  simp [appendBuckets, catList]

lemma appendBuckets_cons (s : Summary) (c : Assignment) (cat : Cat) (ops : List Op)
    (rs : List (Assignment × Cat × List Op)) :
    appendBuckets s ((c, cat, ops) :: rs) = appendBuckets (addToSummary s cat c) rs := by
  cases cat <;> simp [appendBuckets, addToSummary, catList_cons]

lemma transferGo_eq (cm : List (Nat × String)) (pm : List (String × Nat))
    (now : Int) (tasks : List Task) (l : List Assignment) (s : Summary) (ops : List Op) :
    transferGo cm pm now tasks l s ops =
      match processAll cm pm now tasks l with
      | .error e => .error e
      | .ok rs => .ok (appendBuckets s rs, ops ++ opsOf rs) := by
  induction l generalizing s ops with
  | nil => simp [transferGo, processAll, appendBuckets_nil, opsOf]
  | cons a l ih =>
    rw [transferGo, processAll]
    cases h1 : processOne cm pm now tasks a with
    | error e => simp
    | ok r =>
      obtain ⟨c, cat, nops⟩ := r
      cases h2 : processAll cm pm now tasks l with
      | error e => simp [ih, h2]
      | ok rs => simp [ih, h2, appendBuckets_cons, opsOf, List.append_assoc]

lemma transfer_eq (cm : List (Nat × String)) (pm : List (String × Nat))
    (now : Int) (tasks : List Task) (l : List Assignment) :
    transfer cm pm now tasks l =
      match processAll cm pm now tasks l with
      | .error e => .error e
      | .ok rs =>
        .ok (⟨catList .added rs, catList .updated rs,
          catList .isSubmitted rs, catList .upToDate rs⟩, opsOf rs) := by
  rw [transfer, transferGo_eq]
  cases processAll cm pm now tasks l <;>
    simp [appendBuckets, emptySummary]

lemma catList_length_sum (rs : List (Assignment × Cat × List Op)) :
    (catList .added rs).length + (catList .updated rs).length +
      (catList .isSubmitted rs).length + (catList .upToDate rs).length = rs.length := by
  induction rs with
  | nil => simp [catList]
  | cons r rs ih =>
    obtain ⟨c, cat, ops⟩ := r
    cases cat <;> simp [catList_cons] <;> omega

lemma mem_catList {x : Assignment} {cat : Cat} {rs : List (Assignment × Cat × List Op)} :
    x ∈ catList cat rs ↔ ∃ r ∈ rs, r.2.1 = cat ∧ r.1 = x := by
  constructor
  · intro h
    simp only [catList, List.mem_map, List.mem_filter] at h
    obtain ⟨r, ⟨hr, hcat⟩, hx⟩ := h
    exact ⟨r, hr, by simpa using hcat, hx⟩
  · intro ⟨r, hr, hcat, hx⟩
    simp only [catList, List.mem_map, List.mem_filter]
    exact ⟨r, ⟨hr, by simpa using hcat⟩, hx⟩

/-! ### C1: the summary is a partition -/

/-- C1: on a successful pass, each assignment lands in exactly one of the
four summary buckets: the bucket sizes add up to the number of input
assignments, and the buckets are pairwise disjoint. -/
theorem summary_partition (cm : List (Nat × String)) (pm : List (String × Nat))
    (now : Int) (tasks : List Task) (l : List Assignment) (s : Summary) (ops : List Op)
    (h : transfer cm pm now tasks l = .ok (s, ops)) :
    s.added.length + s.updated.length + s.is_submitted.length + s.up_to_date.length
        = l.length ∧
      ∀ x : Assignment,
        (x ∈ s.added → x ∉ s.updated ∧ x ∉ s.is_submitted ∧ x ∉ s.up_to_date) ∧
        (x ∈ s.updated → x ∉ s.is_submitted ∧ x ∉ s.up_to_date) ∧
        (x ∈ s.is_submitted → x ∉ s.up_to_date) := by
  rw [transfer_eq] at h
  cases hall : processAll cm pm now tasks l with
  | error e => rw [hall] at h; exact Except.noConfusion h
  | ok rs =>
  rw [hall] at h
  simp only [Except.ok.injEq, Prod.mk.injEq] at h
  obtain ⟨rfl, rfl⟩ := h
  have key : ∀ (c1 c2 : Cat) (x : Assignment), c1 ≠ c2 →
      x ∈ catList c1 rs → x ∈ catList c2 rs → False := by
    intro c1 c2 x hne h1 h2
    obtain ⟨r1, hr1, hcat1, hx1⟩ := mem_catList.1 h1
    obtain ⟨r2, hr2, hcat2, hx2⟩ := mem_catList.1 h2
    have e1 := processOne_of_mem hall hr1
    have e2 := processOne_of_mem hall hr2
    rw [hx1, ← hx2] at e1
    rw [e1] at e2
    have : r1 = r2 := by simpa using e2
    exact hne (by rw [← hcat1, this, hcat2])
  refine ⟨by simpa using (catList_length_sum rs).trans (processAll_length hall), ?_⟩
  intro x
  refine ⟨fun hx => ⟨?_, ?_, ?_⟩, fun hx => ⟨?_, ?_⟩, fun hx => ?_⟩ <;>
    intro hy
  · exact key _ _ x (by simp) hx hy
  · exact key _ _ x (by simp) hx hy
  · exact key _ _ x (by simp) hx hy
  · exact key _ _ x (by simp) hx hy
  · exact key _ _ x (by simp) hx hy
  · exact key _ _ x (by simp) hx hy

/-- C1 witness: a concrete two-assignment pass (one added, one already
submitted). -/
theorem summary_partition_witness :
    ([⟨"A", none, 2, "u", ⟨none⟩, 1⟩] : List Assignment).length +
        ([] : List Assignment).length +
        ([⟨"B", none, 2, "v", ⟨some "s"⟩, 1⟩] : List Assignment).length +
        ([] : List Assignment).length =
      ([⟨"A", none, 2, "u", ⟨none⟩, 0⟩, ⟨"B", none, 2, "v", ⟨some "s"⟩, 0⟩]
          : List Assignment).length :=
  (summary_partition [(2, "CS")] [("CS", 9)] 0 []
    [⟨"A", none, 2, "u", ⟨none⟩, 0⟩, ⟨"B", none, 2, "v", ⟨some "s"⟩, 0⟩]
    ⟨[⟨"A", none, 2, "u", ⟨none⟩, 1⟩], [], [⟨"B", none, 2, "v", ⟨some "s"⟩, 1⟩], []⟩
    [.addItem "[A](u)" 9 none 1] (by decide)).1

/-! ### C3: the per-assignment decision dispatch -/

/-- C3: the decision dispatch of the reconciler, for an assignment whose
mappings resolve and whose priority computes: not exists and not
submitted stages an add and files under "added"; not exists and already
submitted stages nothing and files under "already-submitted"; exists and
not in sync stages an update of the matched task and files under
"updated"; exists and in sync stages nothing and files under
"up-to-date". -/
theorem reconciler_dispatch (cm : List (Nat × String)) (pm : List (String × Nat))
    (now : Int) (tasks : List Task) (c_a : Assignment) (c_cn : String) (pid p : Nat)
    (hc : List.lookup c_a.course_id cm = some c_cn)
    (hp : List.lookup c_cn pm = some pid)
    (hpr : find_priority c_a.name c_a.due_at now = some p) :
    ((check_existing_task { c_a with priority := p } pid tasks).1 = false →
      c_a.submission.submitted_at = none →
      processOne cm pm now tasks c_a =
        .ok ({ c_a with priority := p }, .added,
          [.addItem (make_task_title { c_a with priority := p }) pid c_a.due_at p])) ∧
    ((check_existing_task { c_a with priority := p } pid tasks).1 = false →
      c_a.submission.submitted_at ≠ none →
      processOne cm pm now tasks c_a =
        .ok ({ c_a with priority := p }, .isSubmitted, [])) ∧
    (∀ j, (check_existing_task { c_a with priority := p } pid tasks).1 = true →
      (check_existing_task { c_a with priority := p } pid tasks).2.1 = false →
      (check_existing_task { c_a with priority := p } pid tasks).2.2 = some j →
      processOne cm pm now tasks c_a =
        .ok ({ c_a with priority := p }, .updated, [.updateItem j c_a.due_at p])) ∧
    ((check_existing_task { c_a with priority := p } pid tasks).1 = true →
      (check_existing_task { c_a with priority := p } pid tasks).2.1 = true →
      processOne cm pm now tasks c_a =
        .ok ({ c_a with priority := p }, .upToDate, [])) := by
  rw [check_eq]
  refine ⟨?_, ?_, ?_, ?_⟩
  · intro hm hsub
    exact processOne_added cm pm now tasks c_a c_cn pid p hc hp hpr hm hsub
  · intro hm hsub
    exact processOne_submitted cm pm now tasks c_a c_cn pid p hc hp hpr hm hsub
  · intro j _ _ hfb
    exact processOne_updated cm pm now tasks c_a c_cn pid p j hc hp hpr hfb
  · intro hm hsy
    have hnb : tasks.any (isBadB { c_a with priority := p } pid) = false := by
      cases hx : tasks.any (isBadB { c_a with priority := p } pid) with
      | false => rfl
      | true => rw [hx] at hsy; exact absurd hsy (by simp)
    exact processOne_uptodate cm pm now tasks c_a c_cn pid p hc hp hpr hm hnb

/-- C3 witness: instantiating the dispatch on a not-existing, unsubmitted
assignment yields the add decision. -/
theorem reconciler_dispatch_witness :
    processOne [(2, "CS")] [("CS", 9)] 0 [] ⟨"A", none, 2, "u", ⟨none⟩, 0⟩ =
      .ok (⟨"A", none, 2, "u", ⟨none⟩, 1⟩, .added, [.addItem "[A](u)" 9 none 1]) :=
  (reconciler_dispatch [(2, "CS")] [("CS", 9)] 0 [] ⟨"A", none, 2, "u", ⟨none⟩, 0⟩
    "CS" 9 1 (by decide) (by decide) (by decide)).1 (by decide) (by decide)

/-! ### C4: a missing mapping aborts the whole run -/

/-- C4 counterexample: with course 2 unmapped, a pass over an assignment
of course 2 followed by a perfectly mappable assignment of course 1
aborts with the `KeyError`: the remaining assignment is not processed,
no summary is produced, and no commit happens.  This refutes the claim
that the pass neither silently skips the assignment nor crashes the
whole run. -/
theorem missing_mapping_counterexample :
    transfer [(1, "CS")] [("CS", 5)] 0 []
        [⟨"A", none, 2, "u", ⟨none⟩, 0⟩, ⟨"B", none, 1, "v", ⟨none⟩, 0⟩] =
      .error (.keyErrorCourse 2) ∧
    runEvents [(1, "CS")] [("CS", 5)] 0 []
        [⟨"A", none, 2, "u", ⟨none⟩, 0⟩, ⟨"B", none, 1, "v", ⟨none⟩, 0⟩] =
      .error (.keyErrorCourse 2) := by
  constructor
  · decide
  · decide

/-- C4 amended: an assignment whose course id is missing from the course
mapping, or whose resolved course name is missing from the project
mapping, raises an uncaught `KeyError` that aborts the entire pass: no
later assignment is processed, no summary is returned, and the commit is
never reached. -/
theorem missing_mapping_aborts_run (cm : List (Nat × String)) (pm : List (String × Nat))
    (now : Int) (tasks : List Task) (a : Assignment) (rest : List Assignment) :
    (List.lookup a.course_id cm = none →
      transfer cm pm now tasks (a :: rest) = .error (.keyErrorCourse a.course_id) ∧
      runEvents cm pm now tasks (a :: rest) = .error (.keyErrorCourse a.course_id)) ∧
    (∀ c_cn, List.lookup a.course_id cm = some c_cn → List.lookup c_cn pm = none →
      transfer cm pm now tasks (a :: rest) = .error (.keyErrorProject c_cn) ∧
      runEvents cm pm now tasks (a :: rest) = .error (.keyErrorProject c_cn)) := by
  constructor
  · intro hc
    have ht : transfer cm pm now tasks (a :: rest) = .error (.keyErrorCourse a.course_id) := by
      rw [transfer, transferGo]
      simp only [processOne, hc]
    exact ⟨ht, by rw [runEvents, ht]⟩
  · intro c_cn hc hp
    have ht : transfer cm pm now tasks (a :: rest) = .error (.keyErrorProject c_cn) := by
      rw [transfer, transferGo]
      simp only [processOne, hc, hp]
    exact ⟨ht, by rw [runEvents, ht]⟩

/-- C4 amended witness: concrete missing course mapping. -/
theorem missing_mapping_aborts_run_witness :
    transfer [(1, "CS")] [("CS", 5)] 0 []
        [⟨"A", none, 7, "u", ⟨none⟩, 0⟩] = .error (.keyErrorCourse 7) ∧
    runEvents [(1, "CS")] [("CS", 5)] 0 []
        [⟨"A", none, 7, "u", ⟨none⟩, 0⟩] = .error (.keyErrorCourse 7) :=
  (missing_mapping_aborts_run [(1, "CS")] [("CS", 5)] 0 []
    ⟨"A", none, 7, "u", ⟨none⟩, 0⟩ []).1 (by decide)

/-! ### C6: a single commit, after the whole pass -/

/-- C6: on a successful pass, the service-visible event trace contains
exactly one commit, it is the last event, and every earlier event is a
staged change: no partial commit is ever observed mid-pass. -/
theorem single_commit_at_end (cm : List (Nat × String)) (pm : List (String × Nat))
    (now : Int) (tasks : List Task) (l : List Assignment) (evs : List Event)
    (h : runEvents cm pm now tasks l = .ok evs) :
    (evs.filter isCommitEvent).length = 1 ∧
    evs.getLast? = some Event.commit ∧
    ∀ e ∈ evs.dropLast, e ≠ Event.commit := by
  rw [runEvents] at h
  cases ht : transfer cm pm now tasks l with
  | error e => rw [ht] at h; exact Except.noConfusion h
  | ok r =>
    rw [ht] at h
    obtain ⟨s, ops⟩ := r
    simp only [Except.ok.injEq] at h
    subst h
    refine ⟨?_, List.getLast?_concat _, ?_⟩
    · rw [List.filter_append]
      have : (ops.map Event.stage).filter isCommitEvent = [] := by
        rw [List.filter_eq_nil_iff]
        intro e he
        obtain ⟨op, _, rfl⟩ := List.mem_map.1 he
        simp [isCommitEvent]
      rw [this]
      rfl
    · intro e he
      rw [List.dropLast_concat] at he
      obtain ⟨op, _, rfl⟩ := List.mem_map.1 he
      exact Event.noConfusion

/-- C6 witness: a concrete successful run. -/
theorem single_commit_at_end_witness :
    (([Event.stage (.addItem "[A](u)" 9 none 1), Event.commit].filter
        isCommitEvent).length = 1) ∧
    ([Event.stage (.addItem "[A](u)" 9 none 1), Event.commit].getLast? =
      some Event.commit) ∧
    ∀ e ∈ [Event.stage (.addItem "[A](u)" 9 none 1), Event.commit].dropLast,
      e ≠ Event.commit :=
  single_commit_at_end [(2, "CS")] [("CS", 9)] 0 []
    [⟨"A", none, 2, "u", ⟨none⟩, 0⟩]
    [Event.stage (.addItem "[A](u)" 9 none 1), Event.commit] (by decide)

/-! ### Commit application: structural lemmas about `applyOps` -/

lemma applyOps_nil (tasks : List Task) : applyOps tasks [] = tasks := rfl

lemma applyOps_cons (tasks : List Task) (op : Op) (ops : List Op) :
    applyOps tasks (op :: ops) = applyOps (applyOp tasks op) ops := rfl

lemma applyOps_append (tasks : List Task) (ops1 ops2 : List Op) :
    applyOps tasks (ops1 ++ ops2) = applyOps (applyOps tasks ops1) ops2 :=
  List.foldl_append _ _ _ _

lemma length_applyOp (tasks : List Task) (op : Op) :
    tasks.length ≤ (applyOp tasks op).length := by
  cases op with
  | addItem c pid d p => simp [applyOp]
  | updateItem idx d p =>
    rw [applyOp]
    cases tasks[idx]? <;> simp

lemma length_applyOps (tasks : List Task) (ops : List Op) :
    tasks.length ≤ (applyOps tasks ops).length := by
  induction ops generalizing tasks with
  | nil => exact le_refl _
  | cons op ops ih =>
    rw [applyOps_cons]
    exact le_trans (length_applyOp tasks op) (ih (applyOp tasks op))

lemma applyOp_getElem?_of_ne {tasks : List Task} {op : Op} {j : Nat}
    (hj : j < tasks.length) (hne : ∀ d p, op ≠ Op.updateItem j d p) :
    (applyOp tasks op)[j]? = tasks[j]? := by
  cases op with
  | addItem c pid d p =>
    rw [applyOp, List.getElem?_append]
    simp [hj]
  | updateItem idx d p =>
    rw [applyOp]
    cases h : tasks[idx]? with
    | none => rfl
    | some t =>
      have hij : idx ≠ j := by
        intro he
        exact hne d p (by rw [he])
      rw [List.getElem?_set]
      simp [hij]

/-- Positions untouched by every update of an op list are unchanged. -/
lemma applyOps_getElem?_avoid {ops : List Op} {tasks : List Task} {j : Nat}
    (hj : j < tasks.length) (hav : ∀ d p, Op.updateItem j d p ∉ ops) :
    (applyOps tasks ops)[j]? = tasks[j]? := by
  induction ops generalizing tasks with
  | nil => rfl
  | cons op ops ih =>
    rw [applyOps_cons]
    have h1 : (applyOp tasks op)[j]? = tasks[j]? :=
      applyOp_getElem?_of_ne hj fun d p he =>
        hav d p (by rw [← he]; exact List.mem_cons_self _ _)
    have h2 : j < (applyOp tasks op).length := lt_of_lt_of_le hj (length_applyOp tasks op)
    rw [ih h2 fun d p hm => hav d p (List.mem_cons_of_mem _ hm), h1]

/-- Applying staged changes never alters a task's content or project. -/
lemma applyOp_preserves {tasks : List Task} (op : Op) {i : Nat} {t0 : Task}
    (h : tasks[i]? = some t0) :
    ∃ t1, (applyOp tasks op)[i]? = some t1 ∧
      t1.content = t0.content ∧ t1.project_id = t0.project_id := by
  have hi : i < tasks.length := (List.getElem?_eq_some_iff.1 h).1
  cases op with
  | addItem c pid d p =>
    refine ⟨t0, ?_, rfl, rfl⟩
    rw [applyOp, List.getElem?_append]
    simp [hi, h]
  | updateItem idx d p =>
    rw [applyOp]
    cases hx : tasks[idx]? with
    | none => exact ⟨t0, h, rfl, rfl⟩
    | some u =>
      by_cases hij : idx = i
      · subst hij
        rw [hx] at h
        obtain rfl : u = t0 := Option.some.inj h
        refine ⟨{ u with due := some ⟨d⟩, priority := p }, ?_, rfl, rfl⟩
        rw [List.getElem?_set]
        simp [hi]
      · refine ⟨t0, ?_, rfl, rfl⟩
        rw [List.getElem?_set]
        simp [hij, h]

lemma applyOps_preserves (ops : List Op) {tasks : List Task} {i : Nat} {t0 : Task}
    (h : tasks[i]? = some t0) :
    ∃ t1, (applyOps tasks ops)[i]? = some t1 ∧
      t1.content = t0.content ∧ t1.project_id = t0.project_id := by
  induction ops generalizing tasks t0 with
  | nil => exact ⟨t0, h, rfl, rfl⟩
  | cons op ops ih =>
    obtain ⟨t1, h1, hc1, hp1⟩ := applyOp_preserves op h
    obtain ⟨t2, h2, hc2, hp2⟩ := ih h1
    exact ⟨t2, h2, hc2.trans hc1, hp2.trans hp1⟩

lemma addsOf_nil : addsOf [] = [] := rfl

lemma addsOf_cons_add (c : String) (pid : Nat) (d : Option String) (p : Nat) (ops : List Op) :
    addsOf (Op.addItem c pid d p :: ops) = taskOfAdd c pid d p :: addsOf ops := by
  simp [addsOf]

lemma addsOf_cons_update (j : Nat) (d : Option String) (p : Nat) (ops : List Op) :
    addsOf (Op.updateItem j d p :: ops) = addsOf ops := by
  simp [addsOf]

/-- Beyond the original tasks, the committed task set is exactly the
added tasks, in staging order. -/
lemma applyOps_getElem?_adds {ops : List Op} (tasks : List Task)
    (hb : ∀ j d p, Op.updateItem j d p ∈ ops → j < tasks.length) (k : Nat) :
    (applyOps tasks ops)[tasks.length + k]? = (addsOf ops)[k]? := by
  induction ops generalizing tasks k with
  | nil =>
    rw [applyOps_nil, addsOf_nil, List.getElem?_eq_none (by omega)]
    simp
  | cons op ops ih =>
    cases op with
    | addItem c pid d p =>
      rw [applyOps_cons, addsOf_cons_add]
      have hbtail : ∀ j d' p', Op.updateItem j d' p' ∈ ops →
          j < (tasks ++ [taskOfAdd c pid d p]).length := by
        intro j d' p' hm
        have := hb j d' p' (List.mem_cons_of_mem _ hm)
        simp
        omega
      cases k with
      | zero =>
        have hav : ∀ d' p', Op.updateItem tasks.length d' p' ∉ ops := by
          intro d' p' hm
          have := hb tasks.length d' p' (List.mem_cons_of_mem _ hm)
          omega
        have hlen : tasks.length < (tasks ++ [taskOfAdd c pid d p]).length := by simp
        rw [applyOp, Nat.add_zero, applyOps_getElem?_avoid hlen hav,
          List.getElem?_concat_length]
        simp
      | succ k' =>
        have hrec := ih (tasks ++ [taskOfAdd c pid d p]) hbtail k'
        have hidx : tasks.length + (k' + 1) = (tasks ++ [taskOfAdd c pid d p]).length + k' := by
          simp
          omega
        rw [applyOp, hidx, hrec]
        simp
    | updateItem idx d p =>
      rw [applyOps_cons, addsOf_cons_update, applyOp]
      cases hx : tasks[idx]? with
      | none => exact ih tasks (fun j d' p' hm => hb j d' p' (List.mem_cons_of_mem _ hm)) k
      | some t =>
        have hlen : (tasks.set idx { t with due := some ⟨d⟩, priority := p }).length
            = tasks.length := List.length_set tasks idx _
        have hrec := ih (tasks.set idx { t with due := some ⟨d⟩, priority := p })
          (by
            intro j d' p' hm
            rw [hlen]
            exact hb j d' p' (List.mem_cons_of_mem _ hm)) k
        rw [hlen] at hrec
        exact hrec

/-- Decomposing membership in the committed task set: either a position
of the original list (content and project preserved) or an added task. -/
lemma mem_applyOps_cases {ops : List Op} {tasks : List Task} {t : Task}
    (hb : ∀ j d p, Op.updateItem j d p ∈ ops → j < tasks.length)
    (ht : t ∈ applyOps tasks ops) :
    (∃ n, n < tasks.length ∧ (applyOps tasks ops)[n]? = some t) ∨ t ∈ addsOf ops := by
  obtain ⟨n, hn⟩ := List.mem_iff_getElem?.1 ht
  by_cases h : n < tasks.length
  · exact Or.inl ⟨n, h, hn⟩
  · right
    obtain ⟨k, rfl⟩ : ∃ k, n = tasks.length + k := ⟨n - tasks.length, by omega⟩
    rw [applyOps_getElem?_adds tasks hb] at hn
    exact List.mem_iff_getElem?.2 ⟨k, hn⟩

/-- The value at an updated position, when no other operation updates it. -/
lemma applyOps_getElem?_set {pre post : List Op} {tasks : List Task} {j : Nat}
    {d : Option String} {p : Nat} {tj : Task}
    (htj : tasks[j]? = some tj)
    (hpre : ∀ d' p', Op.updateItem j d' p' ∉ pre)
    (hpost : ∀ d' p', Op.updateItem j d' p' ∉ post) :
    (applyOps tasks (pre ++ Op.updateItem j d p :: post))[j]? =
      some { tj with due := some ⟨d⟩, priority := p } := by
  have hj : j < tasks.length := (List.getElem?_eq_some_iff.1 htj).1
  rw [show pre ++ Op.updateItem j d p :: post = (pre ++ [Op.updateItem j d p]) ++ post
    by simp]
  rw [applyOps_append, applyOps_append]
  have h1 : (applyOps tasks pre)[j]? = some tj := by
    rw [applyOps_getElem?_avoid hj hpre, htj]
  have hj1 : j < (applyOps tasks pre).length := lt_of_lt_of_le hj (length_applyOps _ _)
  have h2 : (applyOps (applyOps tasks pre) [Op.updateItem j d p])[j]? =
      some { tj with due := some ⟨d⟩, priority := p } := by
    rw [applyOps_cons, applyOps_nil, applyOp, h1, List.getElem?_set]
    simp [hj1]
  have hj2 : j < (applyOps (applyOps tasks pre) [Op.updateItem j d p]).length :=
    lt_of_lt_of_le hj1 (length_applyOps _ _)
  rw [applyOps_getElem?_avoid hj2 hpost, h2]

/-! ### Facts about the results of a successful first pass -/

lemma isMatchB_fields {a : Assignment} {pid : Nat} {t : Task}
    (h : isMatchB a pid t = true) :
    t.content = make_task_title a ∧ t.project_id = pid := by
  rw [isMatchB, Bool.and_eq_true, beq_iff_eq, beq_iff_eq] at h
  exact h

lemma isMatchB_of_fields {a : Assignment} {pid : Nat} {t : Task}
    (hc : t.content = make_task_title a) (hp : t.project_id = pid) :
    isMatchB a pid t = true := by
  rw [isMatchB, Bool.and_eq_true, beq_iff_eq, beq_iff_eq]
  exact ⟨hc, hp⟩

/-- The shape of each result of a successful pass, phrased on the
enriched assignment itself (which is a `processOne` fixpoint). -/
lemma result_shape {cm : List (Nat × String)} {pm : List (String × Nat)}
    {now : Int} {tasks : List Task} {l : List Assignment}
    {rs : List (Assignment × Cat × List Op)}
    (hall : processAll cm pm now tasks l = .ok rs)
    {r : Assignment × Cat × List Op} (hr : r ∈ rs) :
    ∃ c_cn pid,
      List.lookup r.1.course_id cm = some c_cn ∧
      List.lookup c_cn pm = some pid ∧
      find_priority r.1.name r.1.due_at now = some r.1.priority ∧
      ((r.2.1 = Cat.added ∧ tasks.any (isMatchB r.1 pid) = false ∧
          r.1.submission.submitted_at = none ∧
          r.2.2 = [Op.addItem (make_task_title r.1) pid r.1.due_at r.1.priority]) ∨
        (r.2.1 = Cat.isSubmitted ∧ tasks.any (isMatchB r.1 pid) = false ∧
          r.1.submission.submitted_at ≠ none ∧ r.2.2 = []) ∨
        (r.2.1 = Cat.updated ∧ tasks.any (isBadB r.1 pid) = true ∧
          (∃ j, firstBadIdx r.1 pid tasks = some j ∧
            r.2.2 = [Op.updateItem j r.1.due_at r.1.priority])) ∨
        (r.2.1 = Cat.upToDate ∧ tasks.any (isMatchB r.1 pid) = true ∧
          tasks.any (isBadB r.1 pid) = false ∧ r.2.2 = [])) := by
  have h := processOne_of_mem hall hr
  obtain ⟨c, cat, ops⟩ := r
  obtain ⟨c_cn, pid, p, hc, hp, hpr, hce, hcase⟩ := processOne_ok_shape h
  have hpp : p = c.priority := by
    conv_rhs => rw [hce]
  subst hpp
  refine ⟨c_cn, pid, hc, hp, hpr, ?_⟩
  simpa using hcase

/-- Titles survive enrichment. -/
lemma title_of_processOne {cm : List (Nat × String)} {pm : List (String × Nat)}
    {now : Int} {tasks : List Task} {a : Assignment} {r : Assignment × Cat × List Op}
    (h : processOne cm pm now tasks a = .ok r) :
    make_task_title r.1 = make_task_title a := by
  obtain ⟨c, cat, ops⟩ := r
  obtain ⟨c_cn, pid, p, _, _, _, hce, _⟩ := processOne_ok_shape h
  subst hce
  rfl

/-- The input-level no-duplicate-titles hypothesis carries over to the
result list. -/
lemma rs_pairwise_titles {cm : List (Nat × String)} {pm : List (String × Nat)}
    {now : Int} {tasks : List Task} {l : List Assignment}
    {rs : List (Assignment × Cat × List Op)}
    (hall : processAll cm pm now tasks l = .ok rs)
    (H1 : l.Pairwise fun a b => make_task_title a ≠ make_task_title b) :
    rs.Pairwise fun r r' => make_task_title r.1 ≠ make_task_title r'.1 := by
  have hf := processAll_forall₂ hall
  clear hall
  induction hf with
  | nil => exact .nil
  | cons hr hrest ih =>
    rw [List.pairwise_cons] at H1
    refine List.Pairwise.cons ?_ (ih H1.2)
    intro r' hr'
    obtain ⟨b, hb, hbr⟩ := forall₂_mem_right hrest hr'
    rw [title_of_processOne hr, title_of_processOne hbr]
    exact H1.1 b hb

/-- Two results with the same title are the same result. -/
lemma title_unique_rs {rs : List (Assignment × Cat × List Op)}
    (hpw : rs.Pairwise fun r r' => make_task_title r.1 ≠ make_task_title r'.1)
    {r r' : Assignment × Cat × List Op} (hr : r ∈ rs) (hr' : r' ∈ rs)
    (heq : make_task_title r.1 = make_task_title r'.1) : r = r' := by
  by_contra hne
  have hsym : Symmetric fun (r r' : Assignment × Cat × List Op) =>
      make_task_title r.1 ≠ make_task_title r'.1 := fun x y h e => h e.symm
  exact hpw.forall hsym hr hr' hne heq

/-- Two original tasks with the same (content, project) key sit at the
same position, under the no-duplicate-keys hypothesis. -/
lemma key_unique {tasks : List Task}
    (H2 : tasks.Pairwise fun t u => t.content ≠ u.content ∨ t.project_id ≠ u.project_id)
    {i k : Nat} {t u : Task} (hi : tasks[i]? = some t) (hk : tasks[k]? = some u)
    (hc : t.content = u.content) (hp : t.project_id = u.project_id) : i = k := by
  by_contra hne
  rw [List.pairwise_iff_getElem] at H2
  obtain ⟨hi', hti⟩ := List.getElem?_eq_some_iff.1 hi
  obtain ⟨hk', htk⟩ := List.getElem?_eq_some_iff.1 hk
  rcases Nat.lt_or_ge i k with hlt | hge
  · rcases H2 i k hi' hk' hlt with hcon | hcon
    · exact hcon (by rw [hti, htk, hc])
    · exact hcon (by rw [hti, htk, hp])
  · have hlt : k < i := by omega
    rcases H2 k i hk' hi' hlt with hcon | hcon
    · exact hcon (by rw [hti, htk, hc])
    · exact hcon (by rw [hti, htk, hp])

/-- Every update staged by a pass targets a position of the original
task list. -/
lemma opsOf_update_bound {cm : List (Nat × String)} {pm : List (String × Nat)}
    {now : Int} {tasks : List Task} {l : List Assignment}
    {rs : List (Assignment × Cat × List Op)}
    (hall : processAll cm pm now tasks l = .ok rs) :
    ∀ j d p, Op.updateItem j d p ∈ opsOf rs → j < tasks.length := by
  intro j d p hop
  obtain ⟨r, hr, hopr⟩ := List.mem_flatMap.1 hop
  obtain ⟨c_cn, pid, _, _, _, hcase⟩ := result_shape hall hr
  rcases hcase with ⟨_, _, _, hops⟩ | ⟨_, _, _, hops⟩ | ⟨_, _, j', hfb, hops⟩ |
    ⟨_, _, _, hops⟩ <;> rw [hops] at hopr
  · simp at hopr
  · simp at hopr
  · have : j = j' := by
      simp at hopr
      exact hopr.1
    subst this
    exact firstBadIdx_lt hfb
  · simp at hopr

/-- Provenance of an update operation: its owner is an "updated" result
whose matched out-of-sync task sits at the targeted position. -/
lemma update_op_provenance {cm : List (Nat × String)} {pm : List (String × Nat)}
    {now : Int} {tasks : List Task} {l : List Assignment}
    {rs : List (Assignment × Cat × List Op)}
    (hall : processAll cm pm now tasks l = .ok rs)
    {j : Nat} {d : Option String} {p : Nat}
    (hop : Op.updateItem j d p ∈ opsOf rs) :
    ∃ r ∈ rs, ∃ pid tj,
      r.2.1 = Cat.updated ∧
      r.2.2 = [Op.updateItem j r.1.due_at r.1.priority] ∧
      d = r.1.due_at ∧ p = r.1.priority ∧
      tasks[j]? = some tj ∧ isBadB r.1 pid tj = true := by
  obtain ⟨r, hr, hopr⟩ := List.mem_flatMap.1 hop
  obtain ⟨c_cn, pid, _, _, _, hcase⟩ := result_shape hall hr
  rcases hcase with ⟨_, _, _, hops⟩ | ⟨_, _, _, hops⟩ | ⟨hcat, _, j', hfb, hops⟩ |
    ⟨_, _, _, hops⟩ <;> rw [hops] at hopr
  · simp at hopr
  · simp at hopr
  · obtain ⟨hj, hd, hp⟩ : j = j' ∧ d = r.1.due_at ∧ p = r.1.priority := by
      simpa using hopr
    subst hj
    obtain ⟨tj, htj, hbad⟩ := firstBadIdx_some hfb
    exact ⟨r, hr, pid, tj, hcat, hops, hd, hp, htj, hbad⟩
  · simp at hopr

/-- Provenance of an added task: its owner is an "added" result and the
task carries the owner's title, due date and priority. -/
lemma add_task_provenance {cm : List (Nat × String)} {pm : List (String × Nat)}
    {now : Int} {tasks : List Task} {l : List Assignment}
    {rs : List (Assignment × Cat × List Op)}
    (hall : processAll cm pm now tasks l = .ok rs)
    {t : Task} (ht : t ∈ addsOf (opsOf rs)) :
    ∃ r ∈ rs, ∃ pid,
      r.2.1 = Cat.added ∧
      t = taskOfAdd (make_task_title r.1) pid r.1.due_at r.1.priority := by
  obtain ⟨op, hopmem, hfm⟩ := List.mem_filterMap.1 ht
  obtain ⟨r, hr, hopr⟩ := List.mem_flatMap.1 hopmem
  obtain ⟨c_cn, pid, _, _, _, hcase⟩ := result_shape hall hr
  rcases hcase with ⟨hcat, _, _, hops⟩ | ⟨_, _, _, hops⟩ | ⟨_, _, j', hfb, hops⟩ |
    ⟨_, _, _, hops⟩ <;> rw [hops] at hopr
  · have hop : op = Op.addItem (make_task_title r.1) pid r.1.due_at r.1.priority := by
      simpa using hopr
    subst hop
    have : t = taskOfAdd (make_task_title r.1) pid r.1.due_at r.1.priority := by
      simpa using hfm.symm
    exact ⟨r, hr, pid, hcat, this⟩
  · simp at hopr
  · have hop : op = Op.updateItem j' r.1.due_at r.1.priority := by simpa using hopr
    subst hop
    simp [addsOf] at hfm
  · simp at hopr

/-- A task staged by an "added" result is in sync with that result. -/
lemma taskOfAdd_not_bad {c : Assignment} (pid pid' : Nat) :
    isBadB c pid (taskOfAdd (make_task_title c) pid' c.due_at c.priority) = false := by
  rw [isBadB, outOfSyncB]
  cases hd : c.due_at with
  | none => simp [taskOfAdd, hd]
  | some dd => simp [taskOfAdd, hd]

/-! ### The second pass -/

/-- Re-running one assignment against the committed task set: provided
no two input assignments share a title and no two original tasks share a
(content, project) key, the assignment lands in "already-submitted" or
"up-to-date" and stages nothing. -/
lemma pass2_one {cm : List (Nat × String)} {pm : List (String × Nat)}
    {now : Int} {tasks : List Task} {l : List Assignment}
    {rs : List (Assignment × Cat × List Op)}
    (hall : processAll cm pm now tasks l = .ok rs)
    (H1 : l.Pairwise fun a b => make_task_title a ≠ make_task_title b)
    (H2 : tasks.Pairwise fun t u => t.content ≠ u.content ∨ t.project_id ≠ u.project_id)
    {a : Assignment} {r : Assignment × Cat × List Op}
    (har : processOne cm pm now tasks a = .ok r) (hr : r ∈ rs) :
    ∃ cat2, processOne cm pm now (applyOps tasks (opsOf rs)) a = .ok (r.1, cat2, []) ∧
      (cat2 = Cat.isSubmitted ∨ cat2 = Cat.upToDate) := by
  have hpw := rs_pairwise_titles hall H1
  have hbound := opsOf_update_bound hall
  obtain ⟨c, cat, ops⟩ := r
  obtain ⟨c_cn, pid, p, hc, hp, hpr, hce, hcase⟩ := processOne_ok_shape har
  subst hce
  -- an added task carrying this assignment's title comes from this very result
  have hAdd : ∀ t ∈ addsOf (opsOf rs),
      t.content = make_task_title { a with priority := p } →
      cat = Cat.added ∧
        ∃ pid', t = taskOfAdd (make_task_title { a with priority := p }) pid'
          a.due_at p := by
    intro t ht htc
    obtain ⟨r', hr', pid', hcat', htt⟩ := add_task_provenance hall ht
    have htitle : make_task_title r'.1 = make_task_title { a with priority := p } := by
      rw [htt] at htc
      simpa [taskOfAdd] using htc
    have heq : r' = ({ a with priority := p }, cat, ops) := title_unique_rs hpw hr' hr htitle
    subst heq
    exact ⟨hcat', pid', htt⟩
  -- an update targeting a position whose task carries this title comes
  -- from this very result
  have hUpd : ∀ n d' p', Op.updateItem n d' p' ∈ opsOf rs →
      ∀ tn, tasks[n]? = some tn →
      tn.content = make_task_title { a with priority := p } →
      cat = Cat.updated ∧ ops = [Op.updateItem n a.due_at p] ∧
        d' = a.due_at ∧ p' = p := by
    intro n d' p' hop tn htn htnc
    obtain ⟨r', hr', pid', tj, hcat', hops', hd', hp', htj, hbad⟩ :=
      update_op_provenance hall hop
    rw [htn] at htj
    obtain rfl := Option.some.inj htj
    have htitle : make_task_title r'.1 = make_task_title { a with priority := p } := by
      have hx := (isMatchB_fields (isMatchB_of_isBadB hbad)).1
      rw [htnc] at hx
      exact hx.symm
    have heq : r' = ({ a with priority := p }, cat, ops) := title_unique_rs hpw hr' hr htitle
    subst heq
    exact ⟨hcat', hops', hd', hp'⟩
  rcases hcase with ⟨hcat, hm, hsub, hops⟩ | ⟨hcat, hm, hsub, hops⟩ |
    ⟨hcat, hbany, j, hfb, hops⟩ | ⟨hcat, hm, hbany, hops⟩
  -- case "added": the committed add makes it exist and in sync
  · subst hcat
    have hopmem : Op.addItem (make_task_title { a with priority := p }) pid a.due_at p
        ∈ opsOf rs := by
      refine List.mem_flatMap.2 ⟨_, hr, ?_⟩
      rw [hops]
      exact List.mem_cons_self _ _
    have htaddmem : taskOfAdd (make_task_title { a with priority := p }) pid a.due_at p
        ∈ addsOf (opsOf rs) :=
      List.mem_filterMap.2 ⟨_, hopmem, rfl⟩
    obtain ⟨k, hk⟩ := List.mem_iff_getElem?.1 htaddmem
    have hmem2 : taskOfAdd (make_task_title { a with priority := p }) pid a.due_at p
        ∈ applyOps tasks (opsOf rs) :=
      List.mem_iff_getElem?.2 ⟨tasks.length + k,
        by rw [applyOps_getElem?_adds tasks hbound]; exact hk⟩
    have hmatch2 : (applyOps tasks (opsOf rs)).any
        (isMatchB { a with priority := p } pid) = true :=
      List.any_eq_true.2 ⟨_, hmem2, isMatchB_of_fields rfl rfl⟩
    have hnobad2 : (applyOps tasks (opsOf rs)).any
        (isBadB { a with priority := p } pid) = false := by
      rw [List.any_eq_false]
      intro t htm hbad
      have hfields := isMatchB_fields (isMatchB_of_isBadB hbad)
      rcases mem_applyOps_cases hbound htm with ⟨n, hn, hget⟩ | hadds
      · cases h0 : tasks[n]? with
        | none =>
          rw [List.getElem?_eq_none_iff] at h0
          omega
        | some t0 =>
          obtain ⟨t1, ht1, hc1, hp1⟩ := applyOps_preserves (opsOf rs) h0
          rw [hget] at ht1
          obtain rfl := Option.some.inj ht1
          have hm0 : isMatchB { a with priority := p } pid t0 = true :=
            isMatchB_of_fields (by rw [← hc1]; exact hfields.1)
              (by rw [← hp1]; exact hfields.2)
          have : tasks.any (isMatchB { a with priority := p } pid) = true :=
            List.any_eq_true.2 ⟨t0, List.mem_iff_getElem?.2 ⟨n, h0⟩, hm0⟩
          rw [hm] at this
          exact Bool.noConfusion this
      · obtain ⟨_, pid', htt⟩ := hAdd t hadds hfields.1
        rw [htt] at hbad
        rw [show ({ a with priority := p } : Assignment).due_at = a.due_at from rfl] at hbad
        have hgood := taskOfAdd_not_bad (c := { a with priority := p }) pid pid'
        rw [show ({ a with priority := p } : Assignment).due_at = a.due_at from rfl,
          show ({ a with priority := p } : Assignment).priority = p from rfl] at hgood
        rw [hgood] at hbad
        exact Bool.noConfusion hbad
    exact ⟨Cat.upToDate,
      processOne_uptodate cm pm now _ a c_cn pid p hc hp hpr hmatch2 hnobad2,
      Or.inr rfl⟩
  -- case "already submitted": still no matching task
  · subst hcat
    have hnomatch2 : (applyOps tasks (opsOf rs)).any
        (isMatchB { a with priority := p } pid) = false := by
      rw [List.any_eq_false]
      intro t htm hmt
      have hfields := isMatchB_fields hmt
      rcases mem_applyOps_cases hbound htm with ⟨n, hn, hget⟩ | hadds
      · cases h0 : tasks[n]? with
        | none =>
          rw [List.getElem?_eq_none_iff] at h0
          omega
        | some t0 =>
          obtain ⟨t1, ht1, hc1, hp1⟩ := applyOps_preserves (opsOf rs) h0
          rw [hget] at ht1
          obtain rfl := Option.some.inj ht1
          have hm0 : isMatchB { a with priority := p } pid t0 = true :=
            isMatchB_of_fields (by rw [← hc1]; exact hfields.1)
              (by rw [← hp1]; exact hfields.2)
          have : tasks.any (isMatchB { a with priority := p } pid) = true :=
            List.any_eq_true.2 ⟨t0, List.mem_iff_getElem?.2 ⟨n, h0⟩, hm0⟩
          rw [hm] at this
          exact Bool.noConfusion this
      · obtain ⟨hcontra, _⟩ := hAdd t hadds hfields.1
        exact Cat.noConfusion hcontra
    exact ⟨Cat.isSubmitted,
      processOne_submitted cm pm now _ a c_cn pid p hc hp hpr hnomatch2 hsub,
      Or.inl rfl⟩
  -- case "updated": the committed update brings the unique match in sync
  · subst hcat
    obtain ⟨tj, htj, hbadj⟩ := firstBadIdx_some hfb
    have htjc := isMatchB_fields (isMatchB_of_isBadB hbadj)
    obtain ⟨rs1, rs2, hrssplit⟩ := List.append_of_mem hr
    have hopsplit : opsOf rs = opsOf rs1 ++ Op.updateItem j a.due_at p :: opsOf rs2 := by
      rw [hrssplit, opsOf, List.flatMap_append, List.flatMap_cons]
      rw [show (({ a with priority := p }, Cat.updated, ops) :
        Assignment × Cat × List Op).2.2 = ops from rfl, hops]
      rfl
    have hpw' := hpw
    rw [hrssplit, List.pairwise_append] at hpw'
    obtain ⟨hpw1, hpw2, hcross⟩ := hpw'
    rw [List.pairwise_cons] at hpw2
    -- no other update op targets position j
    have hself : ∀ (rsx : List (Assignment × Cat × List Op)),
        (∀ r3 ∈ rsx, r3 ∈ rs) →
        (∀ r3 ∈ rsx, make_task_title r3.1 ≠
          make_task_title ({ a with priority := p } : Assignment)) →
        ∀ d' p', Op.updateItem j d' p' ∉ opsOf rsx := by
      intro rsx hsubs hti d' p' hop
      obtain ⟨r3, hr3, hop3⟩ := List.mem_flatMap.1 hop
      have hop' : Op.updateItem j d' p' ∈ opsOf rs :=
        List.mem_flatMap.2 ⟨r3, hsubs r3 hr3, hop3⟩
      obtain ⟨hcat3, _, _, _⟩ := hUpd j d' p' hop' tj htj htjc.1
      -- the owner is this result; but then its title equals ours
      obtain ⟨r', hr', pid', tj', _, hops', _, _, htj', hbad'⟩ :=
        update_op_provenance hall hop'
      rw [htj] at htj'
      obtain rfl := Option.some.inj htj'
      have htitle3 : make_task_title r3.1 =
          make_task_title ({ a with priority := p } : Assignment) := by
        -- r3 owns an update op at j, so tasks[j] is bad for r3.1
        obtain ⟨c_cn3, pid3, _, _, _, hcase3⟩ :=
          result_shape hall (hsubs r3 hr3)
        rcases hcase3 with ⟨_, _, _, hops3⟩ | ⟨_, _, _, hops3⟩ |
          ⟨_, _, j3, hfb3, hops3⟩ | ⟨_, _, _, hops3⟩ <;> rw [hops3] at hop3
        · simp at hop3
        · simp at hop3
        · have hj3 : j = j3 := by
            simp at hop3
            exact hop3.1
          subst hj3
          obtain ⟨tj3, htj3, hbad3⟩ := firstBadIdx_some hfb3
          rw [htj] at htj3
          obtain rfl := Option.some.inj htj3
          have := (isMatchB_fields (isMatchB_of_isBadB hbad3)).1
          rw [htjc.1] at this
          exact this.symm
        · simp at hop3
      exact hti r3 hr3 htitle3
    have hpre : ∀ d' p', Op.updateItem j d' p' ∉ opsOf rs1 :=
      hself rs1 (fun r3 h3 => by rw [hrssplit]; exact List.mem_append_left _ h3)
        (fun r3 h3 => hcross r3 h3 _ (List.mem_cons_self _ _))
    have hpost : ∀ d' p', Op.updateItem j d' p' ∉ opsOf rs2 :=
      hself rs2 (fun r3 h3 => by
          rw [hrssplit]
          exact List.mem_append_right _ (List.mem_cons_of_mem _ h3))
        (fun r3 h3 => (hpw2.1 r3 h3).symm)
    have hset : (applyOps tasks (opsOf rs))[j]? =
        some { tj with due := some ⟨a.due_at⟩, priority := p } := by
      rw [hopsplit]
      exact applyOps_getElem?_set htj hpre hpost
    have humem : ({ tj with due := some ⟨a.due_at⟩, priority := p } : Task)
        ∈ applyOps tasks (opsOf rs) := List.mem_iff_getElem?.2 ⟨j, hset⟩
    have hmatch2 : (applyOps tasks (opsOf rs)).any
        (isMatchB { a with priority := p } pid) = true :=
      List.any_eq_true.2 ⟨_, humem, isMatchB_of_fields htjc.1 htjc.2⟩
    have hugood : isBadB { a with priority := p } pid
        { tj with due := some ⟨a.due_at⟩, priority := p } = false := by
      rw [isBadB, outOfSyncB]
      simp
    have hnobad2 : (applyOps tasks (opsOf rs)).any
        (isBadB { a with priority := p } pid) = false := by
      rw [List.any_eq_false]
      intro t htm hbad
      have hfields := isMatchB_fields (isMatchB_of_isBadB hbad)
      rcases mem_applyOps_cases hbound htm with ⟨n, hn, hget⟩ | hadds
      · cases h0 : tasks[n]? with
        | none =>
          rw [List.getElem?_eq_none_iff] at h0
          omega
        | some t0 =>
          obtain ⟨t1, ht1, hc1, hp1⟩ := applyOps_preserves (opsOf rs) h0
          rw [hget] at ht1
          obtain rfl := Option.some.inj ht1
          have hnj : n = j :=
            key_unique H2 h0 htj
              (by rw [hc1] at hfields; rw [hfields.1, htjc.1])
              (by rw [hp1] at hfields; rw [hfields.2, htjc.2])
          subst hnj
          rw [hset] at hget
          obtain rfl := Option.some.inj hget
          rw [hugood] at hbad
          exact Bool.noConfusion hbad
      · obtain ⟨hcontra, _⟩ := hAdd t hadds hfields.1
        exact Cat.noConfusion hcontra
    exact ⟨Cat.upToDate,
      processOne_uptodate cm pm now _ a c_cn pid p hc hp hpr hmatch2 hnobad2,
      Or.inr rfl⟩
  -- case "up to date": the unique match is untouched
  · subst hcat
    obtain ⟨t0, ht0mem, ht0match⟩ := List.any_eq_true.1 hm
    obtain ⟨n0, h00⟩ := List.mem_iff_getElem?.1 ht0mem
    obtain ⟨t1, ht1, hc1, hp1⟩ := applyOps_preserves (opsOf rs) h00
    have ht0fields := isMatchB_fields ht0match
    have hmatch2 : (applyOps tasks (opsOf rs)).any
        (isMatchB { a with priority := p } pid) = true :=
      List.any_eq_true.2 ⟨t1, List.mem_iff_getElem?.2 ⟨n0, ht1⟩,
        isMatchB_of_fields (by rw [hc1]; exact ht0fields.1)
          (by rw [hp1]; exact ht0fields.2)⟩
    have hnobad2 : (applyOps tasks (opsOf rs)).any
        (isBadB { a with priority := p } pid) = false := by
      rw [List.any_eq_false]
      intro t htm hbad
      have hfields := isMatchB_fields (isMatchB_of_isBadB hbad)
      rcases mem_applyOps_cases hbound htm with ⟨n, hn, hget⟩ | hadds
      · cases h0 : tasks[n]? with
        | none =>
          rw [List.getElem?_eq_none_iff] at h0
          omega
        | some t0' =>
          obtain ⟨t1', ht1', hc1', hp1'⟩ := applyOps_preserves (opsOf rs) h0
          rw [hget] at ht1'
          obtain rfl := Option.some.inj ht1'
          have ht0'c : t0'.content =
              make_task_title ({ a with priority := p } : Assignment) := by
            rw [← hc1']
            exact hfields.1
          have hav : ∀ d' p', Op.updateItem n d' p' ∉ opsOf rs := by
            intro d' p' hop
            obtain ⟨hcontra, hopsx, _, _⟩ := hUpd n d' p' hop t0' h0 ht0'c
            rw [hops] at hopsx
            exact List.noConfusion hopsx
          have hkeep := applyOps_getElem?_avoid hn hav
          rw [hget, h0] at hkeep
          obtain rfl := Option.some.inj hkeep
          have : tasks.any (isBadB { a with priority := p } pid) = true :=
            List.any_eq_true.2 ⟨t, List.mem_iff_getElem?.2 ⟨n, h0⟩, hbad⟩
          rw [hbany] at this
          exact Bool.noConfusion this
      · obtain ⟨hcontra, _⟩ := hAdd t hadds hfields.1
        exact Cat.noConfusion hcontra
    exact ⟨Cat.upToDate,
      processOne_uptodate cm pm now _ a c_cn pid p hc hp hpr hmatch2 hnobad2,
      Or.inr rfl⟩

/-- The whole second pass succeeds and never stages an add or an
update. -/
lemma pass2_all {cm : List (Nat × String)} {pm : List (String × Nat)}
    {now : Int} {tasks : List Task} {l0 : List Assignment}
    {rs0 : List (Assignment × Cat × List Op)}
    (hall : processAll cm pm now tasks l0 = .ok rs0)
    (H1 : l0.Pairwise fun a b => make_task_title a ≠ make_task_title b)
    (H2 : tasks.Pairwise fun t u => t.content ≠ u.content ∨ t.project_id ≠ u.project_id)
    {l : List Assignment} {rs : List (Assignment × Cat × List Op)}
    (hf : List.Forall₂ (fun a r => processOne cm pm now tasks a = .ok r) l rs)
    (hsub : ∀ r ∈ rs, r ∈ rs0) :
    ∃ rs2, processAll cm pm now (applyOps tasks (opsOf rs0)) l = .ok rs2 ∧
      ∀ r2 ∈ rs2, r2.2.1 ≠ Cat.added ∧ r2.2.1 ≠ Cat.updated := by
  induction hf with
  | nil => exact ⟨[], rfl, by simp⟩
  | @cons a b l₁ l₂ ha hrest ih =>
    obtain ⟨cat2, h2, hcat2⟩ :=
      pass2_one hall H1 H2 ha (hsub _ (List.mem_cons_self _ _))
    obtain ⟨rs2, hrs2, hprop⟩ := ih fun r hrm => hsub _ (List.mem_cons_of_mem _ hrm)
    refine ⟨(b.1, cat2, []) :: rs2, ?_, ?_⟩
    · rw [processAll]
      rw [h2, hrs2]
    · intro r2 hr2
      cases hr2 with
      | head =>
        rcases hcat2 with h | h <;> rw [h] <;> exact ⟨by simp, by simp⟩
      | tail _ hmem => exact hprop _ hmem

/-! ### C5: idempotence of the reconciler -/

/-- C5 counterexample: with two identical out-of-sync duplicate tasks,
the first pass updates only the first one (the scan breaks there), so
after the commit the second duplicate is still out of sync and the
second pass files the assignment under "updated" again — the second
pass is not free of staged changes. -/
theorem second_pass_counterexample :
    transfer [(1, "CS")] [("CS", 5)] 0
        [⟨"[A](u)", 5, some ⟨some "1970-01-09T00:00:00Z"⟩, 1⟩,
          ⟨"[A](u)", 5, some ⟨some "1970-01-09T00:00:00Z"⟩, 1⟩]
        [⟨"A", some "1970-01-10T00:00:00Z", 1, "u", ⟨none⟩, 0⟩] =
      .ok (⟨[], [⟨"A", some "1970-01-10T00:00:00Z", 1, "u", ⟨none⟩, 1⟩], [], []⟩,
        [.updateItem 0 (some "1970-01-10T00:00:00Z") 1]) ∧
    applyOps
        [⟨"[A](u)", 5, some ⟨some "1970-01-09T00:00:00Z"⟩, 1⟩,
          ⟨"[A](u)", 5, some ⟨some "1970-01-09T00:00:00Z"⟩, 1⟩]
        [.updateItem 0 (some "1970-01-10T00:00:00Z") 1] =
      [⟨"[A](u)", 5, some ⟨some "1970-01-10T00:00:00Z"⟩, 1⟩,
        ⟨"[A](u)", 5, some ⟨some "1970-01-09T00:00:00Z"⟩, 1⟩] ∧
    transfer [(1, "CS")] [("CS", 5)] 0
        [⟨"[A](u)", 5, some ⟨some "1970-01-10T00:00:00Z"⟩, 1⟩,
          ⟨"[A](u)", 5, some ⟨some "1970-01-09T00:00:00Z"⟩, 1⟩]
        [⟨"A", some "1970-01-10T00:00:00Z", 1, "u", ⟨none⟩, 0⟩] =
      .ok (⟨[], [⟨"A", some "1970-01-10T00:00:00Z", 1, "u", ⟨none⟩, 1⟩], [], []⟩,
        [.updateItem 1 (some "1970-01-10T00:00:00Z") 1]) := by
  refine ⟨by decide, by decide, by decide⟩

/-- C5 amended: provided no two input assignments share a task title and
no two existing tasks share a (content, project) key, re-running the
pass over the same assignments and the task set obtained by committing
the first pass's staged changes yields an empty "added" bucket and an
empty "updated" bucket: every assignment falls into "up-to-date" or
"already-submitted". -/
theorem second_pass_stable (cm : List (Nat × String)) (pm : List (String × Nat))
    (now : Int) (tasks : List Task) (l : List Assignment) (s1 : Summary) (ops1 : List Op)
    (H1 : l.Pairwise fun a b => make_task_title a ≠ make_task_title b)
    (H2 : tasks.Pairwise fun t u => t.content ≠ u.content ∨ t.project_id ≠ u.project_id)
    (h : transfer cm pm now tasks l = .ok (s1, ops1)) :
    ∃ s2 ops2, transfer cm pm now (applyOps tasks ops1) l = .ok (s2, ops2) ∧
      s2.added = [] ∧ s2.updated = [] := by
  rw [transfer_eq] at h
  cases hall : processAll cm pm now tasks l with
  | error e => rw [hall] at h; exact Except.noConfusion h
  | ok rs =>
  rw [hall] at h
  simp only [Except.ok.injEq, Prod.mk.injEq] at h
  obtain ⟨rfl, rfl⟩ := h
  obtain ⟨rs2, hrs2, hprop⟩ :=
    pass2_all hall H1 H2 (processAll_forall₂ hall) fun _ hm => hm
  refine ⟨⟨catList .added rs2, catList .updated rs2,
    catList .isSubmitted rs2, catList .upToDate rs2⟩, opsOf rs2, ?_, ?_, ?_⟩
  · rw [transfer_eq, hrs2]
  · show catList Cat.added rs2 = []
    rw [catList, List.filter_eq_nil_iff.2 fun r2 hr2 => by
      simpa using (hprop r2 hr2).1]
    rfl
  · show catList Cat.updated rs2 = []
    rw [catList, List.filter_eq_nil_iff.2 fun r2 hr2 => by
      simpa using (hprop r2 hr2).2]
    rfl

/-- C5 amended witness: a single fresh assignment is added by the first
pass and found up to date by the second. -/
theorem second_pass_stable_witness :
    ∃ s2 ops2,
      transfer [(1, "CS")] [("CS", 5)] 0
          (applyOps [] [.addItem "[A](u)" 5 none 1])
          [⟨"A", none, 1, "u", ⟨none⟩, 0⟩] = .ok (s2, ops2) ∧
        s2.added = [] ∧ s2.updated = [] :=
  second_pass_stable [(1, "CS")] [("CS", 5)] 0 [] [⟨"A", none, 1, "u", ⟨none⟩, 0⟩]
    ⟨[⟨"A", none, 1, "u", ⟨none⟩, 1⟩], [], [], []⟩ [.addItem "[A](u)" 5 none 1]
    (by decide) (by decide) (by decide)

end EasyRun
